import Mathlib

/-!
Verification of the multi-agent market-researcher pipeline
(`src/streamlit_app.py`): the agent functions `research_agent`,
`use_case_generation_agent`, `resource_collection_agent`,
`optional_genai_proposer_agent` and `orchestrator`, together with the
JSON salvage-parsing they share.

The embedding models Python values flowing through the pipeline as a
`Json` inductive, Python dicts as association lists with Python's
insertion semantics, and Python exceptions as `Except String`.  The
external collaborators (Google search, Gemini) are parameters: a search
client may fail (`RawSearch`), the wrapper `perform_GoogleSearch`
totalises it exactly as the source does; the text generator (`GenFun`)
may raise or return an arbitrary string.  `json.loads` / `json.dumps`
are modelled by an executable recursive-descent parser / serializer over
integer-numbered JSON.
-/

set_option maxHeartbeats 4000000
set_option maxRecDepth 8000

/-- JSON values (numbers restricted to integers), also used as the model
of the Python values produced by `json.loads`. -/
inductive Json where
  | null : Json
  | bool (b : Bool) : Json
  | num (n : Int) : Json
  | str (s : String) : Json
  | arr (elems : List Json) : Json
  | obj (fields : List (String × Json)) : Json

/-- Concatenate a list of lists. -/
def catLists : List (List α) → List α
  | [] => []
  | l :: ls => l ++ catLists ls

/-! ### Serialization (model of `json.dumps` with its default separators) -/

/-- In a JSON string literal, escape the quote and backslash characters. -/
def escChar (c : Char) : List Char :=
  if c = '"' ∨ c = '\\' then ['\\', c] else [c]

/-- Escape the body of a JSON string literal. -/
def escStr : List Char → List Char
  | [] => []
  | c :: cs => escChar c ++ escStr cs

/-- The decimal digit character for `d < 10`. -/
def digitChar (d : Nat) : Char := Char.ofNat (48 + d)

/-- Decimal digits, fuel-indexed so that the definition is structural. -/
def natDigitsAux : Nat → Nat → List Char
  | 0, _ => []
  | fuel + 1, n =>
    if n < 10 then [digitChar n]
    else natDigitsAux fuel (n / 10) ++ [digitChar (n % 10)]

/-- Decimal digits of a natural number, most significant first. -/
def natDigits (n : Nat) : List Char := natDigitsAux (n + 1) n

/-- Decimal rendering of an integer. -/
def intChars (n : Int) : List Char :=
  if n < 0 then '-' :: natDigits n.natAbs else natDigits n.toNat

/-- A serialized JSON string literal (quotes included). -/
def serStrChars (s : String) : List Char := '"' :: escStr s.data ++ ['"']

mutual
/-- Characters of the serialization of a JSON value, following
`json.dumps` with its default separators `", "` and `": "`. -/
def serJ : Json → List Char
  | .null => "null".data
  | .bool true => "true".data
  | .bool false => "false".data
  | .num n => intChars n
  | .str s => serStrChars s
  | .arr xs => '[' :: serArr xs ++ [']']
  | .obj kvs => '{' :: serObj kvs ++ ['}']

/-- Serialized array elements, separated by `", "`. -/
def serArr : List Json → List Char
  | [] => []
  | [x] => serJ x
  | x :: y :: xs => serJ x ++ ',' :: ' ' :: serArr (y :: xs)

/-- Serialized object members, `key: value` separated by `", "`. -/
def serObj : List (String × Json) → List Char
  | [] => []
  | [kv] => serStrChars kv.1 ++ ':' :: ' ' :: serJ kv.2
  | kv :: p :: ps => serStrChars kv.1 ++ ':' :: ' ' :: serJ kv.2 ++ ',' :: ' ' :: serObj (p :: ps)
end

/-- Model of `json.dumps` applied to a JSON value. -/
def serialize (v : Json) : String := ⟨serJ v⟩

/-! ### Parsing (model of `json.loads`) -/

/-- JSON whitespace characters skipped by the parser. -/
def isWsChar (c : Char) : Bool := c = ' ' || c = '\t' || c = '\n' || c = '\r'

/-- Drop leading JSON whitespace. -/
def skipWs : List Char → List Char
  | [] => []
  | c :: cs => if isWsChar c then skipWs cs else c :: cs

/-- Decimal digit test. -/
def isDigitChar (c : Char) : Bool := 48 ≤ c.toNat && c.toNat ≤ 57

/-- Value of a decimal digit character. -/
def digitVal (c : Char) : Nat := c.toNat - 48

/-- Split off the maximal run of leading decimal digits. -/
def takeDigits : List Char → List Char × List Char
  | [] => ([], [])
  | c :: cs =>
    if isDigitChar c then
      let p := takeDigits cs
      (c :: p.1, p.2)
    else ([], c :: cs)

/-- Numeric value of a digit run. -/
def digitsVal (ds : List Char) : Nat := ds.foldl (fun a c => 10 * a + digitVal c) 0

/-- Decode a character following a backslash in a JSON string literal. -/
def escDecode (c : Char) : Option Char :=
  if c = '"' then some '"'
  else if c = '\\' then some '\\'
  else if c = '/' then some '/'
  else if c = 'n' then some '\n'
  else if c = 't' then some '\t'
  else if c = 'r' then some '\r'
  else if c = 'b' then some (Char.ofNat 8)
  else if c = 'f' then some (Char.ofNat 12)
  else none

/-- Parse the body of a JSON string literal up to and including the
closing quote; returns the decoded content and the remaining input. -/
def parseStrBody : List Char → Option (List Char × List Char)
  | [] => none
  | c :: rest =>
    if c = '"' then some ([], rest)
    else if c = '\\' then
      match rest with
      | [] => none
      | e :: rest2 =>
        match escDecode e, parseStrBody rest2 with
        | some d, some p => some (d :: p.1, p.2)
        | _, _ => none
    else
      match parseStrBody rest with
      | some p => some (c :: p.1, p.2)
      | none => none

/-- Python dict insertion: overwrite the value in place if the key is
present, append otherwise. -/
def insertPy (d : List (String × Json)) (k : String) (v : Json) : List (String × Json) :=
  if d.any (fun kv => kv.1 == k) then
    d.map (fun kv => if kv.1 == k then (k, v) else kv)
  else d ++ [(k, v)]

/-- Build a Python dict from parsed object members (duplicate keys:
last value wins, first position kept — CPython `dict` semantics). -/
def mkDict (kvs : List (String × Json)) : List (String × Json) :=
  kvs.foldl (fun acc kv => insertPy acc kv.1 kv.2) []

mutual
/-- Fuel-indexed recursive-descent parser for one JSON value; returns
the value and the unconsumed input. -/
def parseVal : Nat → List Char → Option (Json × List Char)
  | 0, _ => none
  | fuel + 1, s =>
    match skipWs s with
    | [] => none
    | c :: r =>
      if c = 'n' then
        match r with
        | 'u' :: 'l' :: 'l' :: r2 => some (.null, r2)
        | _ => none
      else if c = 't' then
        match r with
        | 'r' :: 'u' :: 'e' :: r2 => some (.bool true, r2)
        | _ => none
      else if c = 'f' then
        match r with
        | 'a' :: 'l' :: 's' :: 'e' :: r2 => some (.bool false, r2)
        | _ => none
      else if c = '"' then
        match parseStrBody r with
        | some p => some (.str ⟨p.1⟩, p.2)
        | none => none
      else if c = '[' then
        match skipWs r with
        | [] => none
        | c2 :: r2 =>
          if c2 = ']' then some (.arr [], r2)
          else
            match parseElems fuel (c2 :: r2) with
            | some p => some (.arr p.1, p.2)
            | none => none
      else if c = '{' then
        match skipWs r with
        | [] => none
        | c2 :: r2 =>
          if c2 = '}' then some (.obj [], r2)
          else
            match parseMembers fuel (c2 :: r2) with
            | some p => some (.obj (mkDict p.1), p.2)
            | none => none
      else if c = '-' then
        match takeDigits r with
        | ([], _) => none
        | (ds, r2) => some (.num (-(digitsVal ds : Int)), r2)
      else if isDigitChar c then
        match takeDigits (c :: r) with
        | (ds, r2) => some (.num (digitsVal ds), r2)
      else none

/-- Parse the elements of a non-empty JSON array, including the closing
bracket. -/
def parseElems : Nat → List Char → Option (List Json × List Char)
  | 0, _ => none
  | fuel + 1, s =>
    match parseVal fuel s with
    | none => none
    | some (v, r) =>
      match skipWs r with
      | [] => none
      | c :: r2 =>
        if c = ',' then
          match parseElems fuel r2 with
          | some p => some (v :: p.1, p.2)
          | none => none
        else if c = ']' then some ([v], r2)
        else none

/-- Parse the members of a non-empty JSON object, including the closing
brace. -/
def parseMembers : Nat → List Char → Option (List (String × Json) × List Char)
  | 0, _ => none
  | fuel + 1, s =>
    match skipWs s with
    | [] => none
    | c :: r =>
      if c = '"' then
        match parseStrBody r with
        | none => none
        | some kp =>
          match skipWs kp.2 with
          | [] => none
          | c2 :: r3 =>
            if c2 = ':' then
              match parseVal fuel r3 with
              | none => none
              | some (v, r4) =>
                match skipWs r4 with
                | [] => none
                | c3 :: r5 =>
                  if c3 = ',' then
                    match parseMembers fuel r5 with
                    | some p => some ((⟨kp.1⟩, v) :: p.1, p.2)
                    | none => none
                  else if c3 = '}' then some ([(⟨kp.1⟩, v)], r5)
                  else none
            else none
      else none
end

/-- Model of `json.loads`: parse one JSON value, requiring only trailing
whitespace after it; `none` models `json.JSONDecodeError`. -/
def json_loads (s : String) : Option Json :=
  match parseVal (s.length + 1) s.data with
  | some (v, rest) => if skipWs rest = [] then some v else none
  | none => none

mutual
/-- Recursively: all object member lists have pairwise-distinct keys.
This characterises the JSON values representable as Python values
(a Python `dict` cannot hold duplicate keys). -/
def Json.canonical : Json → Bool
  | .null => true
  | .bool _ => true
  | .num _ => true
  | .str _ => true
  | .arr xs => canonicalList xs
  | .obj kvs => decide ((kvs.map Prod.fst).Nodup) && canonicalKVs kvs

/-- Canonicity over array elements. -/
def canonicalList : List Json → Bool
  | [] => true
  | x :: xs => Json.canonical x && canonicalList xs

/-- Canonicity over object member values. -/
def canonicalKVs : List (String × Json) → Bool
  | [] => true
  | kv :: kvs => Json.canonical kv.2 && canonicalKVs kvs
end

/-! ### Python string and dict operations used by the agents -/

/-- Whitespace stripped by Python's `str.strip()`. -/
def isPySpace (c : Char) : Bool :=
  c = ' ' || c = '\t' || c = '\n' || c = '\r' || c = Char.ofNat 11 || c = Char.ofNat 12

/-- Model of `str.strip()`. -/
def pyStrip (s : String) : String :=
  ⟨((s.data.dropWhile isPySpace).reverse.dropWhile isPySpace).reverse⟩

/-- Python slice `s[:n]` (by code points). -/
def pyTake (n : Nat) (s : String) : String := ⟨s.data.take n⟩

/-- Does the pattern occur as a leading segment of the list? -/
def headMatch : List Char → List Char → Bool
  | [], _ => true
  | _ :: _, [] => false
  | p :: ps, c :: cs => p == c && headMatch ps cs

/-- Model of `str.startswith`. -/
def pyStartsWith (s p : String) : Bool := headMatch p.data s.data

/-- Model of `str.endswith`. -/
def pyEndsWith (s p : String) : Bool := headMatch p.data.reverse s.data.reverse

/-- Does the pattern occur as a contiguous run inside the list
(`needle in haystack` on Python strings)? -/
def substrL (p : List Char) : List Char → Bool
  | [] => p.isEmpty
  | c :: cs => headMatch p (c :: cs) || substrL p cs

/-- Python substring test `p in s`. -/
def substrB (p s : String) : Bool := substrL p.data s.data

/-- Model of `str.find` for a single character: index of first occurrence. -/
def findIdx : List Char → Char → Option Nat
  | [], _ => none
  | c :: cs, t => if c = t then some 0 else (findIdx cs t).map (· + 1)

/-- Model of `str.rfind` for a single character: index of last occurrence. -/
def rfindIdx (l : List Char) (t : Char) : Option Nat :=
  match findIdx l.reverse t with
  | some i => some (l.length - 1 - i)
  | none => none

/-- Python slice `l[i : j + 1]`. -/
def sliceSub (l : List Char) (i j : Nat) : List Char := (l.drop i).take (j + 1 - i)

/-- The markdown-fence cleaning step shared by all three LLM-consuming
agents: strip, drop a leading ` ```json `, drop a trailing ` ``` `,
strip again. -/
def cleanFences (s : String) : String :=
  let c := pyStrip s
  let c2 := if pyStartsWith c "```json" then (⟨c.data.drop 7⟩ : String) else c
  let c3 := if pyEndsWith c2 "```" then (⟨c2.data.take (c2.data.length - 3)⟩ : String) else c2
  pyStrip c3

/-! ### Python value rendering (`str()` in f-strings) -/

/-- The single-quote character used by Python `repr` of strings. -/
def sqChar : Char := Char.ofNat 39

/-- Escape for the model of Python `repr` of a string. -/
def escPyChar (c : Char) : List Char :=
  if c = sqChar ∨ c = '\\' then ['\\', c] else [c]

/-- Escape a string body for the model of Python `repr`. -/
def escPy : List Char → List Char
  | [] => []
  | c :: cs => escPyChar c ++ escPy cs

mutual
/-- Model of Python `repr` of a parsed-JSON value (used for values
nested inside containers interpolated into f-strings). -/
def pyRepr : Json → List Char
  | .null => ['N', 'o', 'n', 'e']
  | .bool true => ['T', 'r', 'u', 'e']
  | .bool false => ['F', 'a', 'l', 's', 'e']
  | .num n => intChars n
  | .str s => sqChar :: escPy s.data ++ [sqChar]
  | .arr xs => '[' :: pyReprList xs ++ [']']
  | .obj kvs => '{' :: pyReprKVs kvs ++ ['}']

/-- Rendering of list elements, `", "`-separated. -/
def pyReprList : List Json → List Char
  | [] => []
  | [x] => pyRepr x
  | x :: y :: xs => pyRepr x ++ ',' :: ' ' :: pyReprList (y :: xs)

/-- Rendering of dict items, `", "`-separated. -/
def pyReprKVs : List (String × Json) → List Char
  | [] => []
  | [kv] => sqChar :: escPy kv.1.data ++ sqChar :: ':' :: ' ' :: pyRepr kv.2
  | kv :: p :: ps =>
    sqChar :: escPy kv.1.data ++ sqChar :: ':' :: ' ' :: pyRepr kv.2 ++ ',' :: ' ' :: pyReprKVs (p :: ps)
end

/-- Model of Python `str()` as used in f-string interpolation. -/
def pyStr : Json → String
  | .str s => s
  | v => ⟨pyRepr v⟩

/-! ### Python dicts over parsed-JSON values -/

/-- A Python dict with string keys, as built by this pipeline. -/
abbrev PyDict := List (String × Json)

/-- Model of the `d.get(k)` / `d[k]` lookup. -/
def dictGet (d : PyDict) (k : String) : Option Json :=
  match d.find? (fun kv => kv.1 == k) with
  | some kv => some kv.2
  | none => none

/-- Model of `d.get(k, default)`. -/
def dictGetD (d : PyDict) (k : String) (dflt : Json) : Json := (dictGet d k).getD dflt

/-- Model of `d.update(other)` for a dict argument: insert every pair in order. -/
def dictUpdateObj (d : PyDict) (kvs : List (String × Json)) : PyDict :=
  kvs.foldl (fun acc kv => insertPy acc kv.1 kv.2) d

/-- Interpret a parsed-JSON list as a key/value pair sequence for
`dict.update`; `none` models the `TypeError`/`ValueError` Python raises
when an element is not a 2-element sequence with a usable key. -/
def pairsOfJson : List Json → Option (List (String × Json))
  | [] => some []
  | .arr [.str k, v] :: xs => (pairsOfJson xs).map (fun ps => (k, v) :: ps)
  | _ => none

/-- Model of `research_data.update(parsed)` for an arbitrary parsed value;
`.error` models the uncaught-by-`json.JSONDecodeError` exception that
Python raises when the argument is not dict-like. -/
def dictUpdateJson (d : PyDict) (v : Json) : Except String PyDict :=
  match v with
  | .obj kvs => .ok (dictUpdateObj d kvs)
  | .arr xs =>
    match pairsOfJson xs with
    | some kvs => .ok (dictUpdateObj d kvs)
    | none => .error "cannot convert dictionary update sequence"
  | _ => .error "object is not iterable"

mutual
/-- Structural equality of parsed-JSON values (Python `==` on the
scalar/hashable values this pipeline compares). -/
def jsonBeq : Json → Json → Bool
  | .null, .null => true
  | .bool a, .bool b => a == b
  | .num a, .num b => a == b
  | .str a, .str b => a == b
  | .arr a, .arr b => jsonListBeq a b
  | .obj a, .obj b => jsonKVsBeq a b
  | _, _ => false

/-- Equality over lists. -/
def jsonListBeq : List Json → List Json → Bool
  | [], [] => true
  | a :: as, b :: bs => jsonBeq a b && jsonListBeq as bs
  | _, _ => false

/-- Equality over key/value lists. -/
def jsonKVsBeq : List (String × Json) → List (String × Json) → Bool
  | [], [] => true
  | a :: as, b :: bs => (a.1 == b.1) && jsonBeq a.2 b.2 && jsonKVsBeq as bs
  | _, _ => false
end

/-! ### The collaborators -/

/-- One Google Custom Search result item as consumed by the agents
(each field read with `.get(...)`, so each may be absent). -/
structure SearchItem where
  title : Option String
  snippet : Option String
  link : Option String

/-- A totalised search client (what `perform_GoogleSearch` provides to
the agents): query and `num_results` to a list of items. -/
abbrev SearchFun := String → Nat → List SearchItem

/-- The raw search backend, which may raise. -/
abbrev RawSearch := String → Nat → Except String (List SearchItem)

/-- The text generator (`llm_model.generate_content(...).text`), which
may raise (`.error`) or return an arbitrary string. -/
abbrev GenFun := String → Except String String

/-- The wrapper `perform_GoogleSearch`: run the backend, catch any exception and
degrade to zero results. -/
def perform_GoogleSearch (raw : RawSearch) : SearchFun := fun q n =>
  match raw q n with
  | .ok items => items
  | .error _ => []

/-! ### Shared JSON salvage extraction -/

/-- The two-tier parse used by `research_agent` (object context): parse
the stripped response verbatim, else clean markdown fences and parse
again.  There is no bracket-substring salvage tier in this context. -/
def extract_object_tiers (t : String) : Option Json :=
  match json_loads t with
  | some v => some v
  | none => json_loads (cleanFences t)

/-- The array-context extraction shared verbatim by
`use_case_generation_agent` and `optional_genai_proposer_agent`: parse
the stripped response; on success a non-list parse degrades to `[]`;
on failure clean fences, locate the first `[` and the last `]`, and if
the first strictly precedes the last parse that inclusive substring.
The boolean records whether a parse produced a list. -/
def extract_list_pair (t : String) : List Json × Bool :=
  match json_loads t with
  | some (.arr xs) => (xs, true)
  | some _ => ([], false)
  | none =>
    let c := cleanFences t
    match findIdx c.data '[', rfindIdx c.data ']' with
    | some i, some j =>
      if i < j then
        match json_loads ⟨sliceSub c.data i j⟩ with
        | some (.arr xs) => (xs, true)
        | some _ => ([], false)
        | none => ([], false)
      else ([], false)
    | _, _ => ([], false)

/-! ### Agent 1: `research_agent` -/

/-- The text block a result item contributes to the aggregated search
text. -/
def itemText (it : SearchItem) : String :=
  "Title: " ++ it.title.getD "N/A" ++ "\nSnippet: " ++ it.snippet.getD "N/A" ++
    "\nURL: " ++ it.link.getD "#" ++ "\n\n"

/-- The stored form of a result item inside
`research_data["search_results"]`. -/
def itemJson (it : SearchItem) : Json :=
  .obj ((match it.title with | some t => [("title", Json.str t)] | none => []) ++
    (match it.snippet with | some s => [("snippet", Json.str s)] | none => []) ++
    (match it.link with | some l => [("link", Json.str l)] | none => []))

/-- The four fixed research query templates. -/
def researchQueries (name : String) : List String :=
  [name ++ " industry sector",
   name ++ " key products and services",
   name ++ " strategic priorities focus areas",
   name ++ " company profile"]

/-- All items returned for the four research queries (default
`num_results=5`), in query order. -/
def allResearchItems (name : String) (search : SearchFun) : List SearchItem :=
  catLists ((researchQueries name).map (fun q => search q 5))

/-- The aggregated `all_search_text` block. -/
def allSearchText (name : String) (search : SearchFun) : String :=
  String.join ((allResearchItems name search).map itemText)

/-- The research extraction prompt (the `[:7000]` truncation of the
search text is part of the f-string). -/
def researchPrompt (name : String) (all_search_text : String) : String :=
  "\n    Analyze the following text snippets from web searches about \"" ++ name ++
  "\".\n    Identify and extract the following information:\n    1. The main industry sector (e.g., Automotive, Finance, Healthcare).\n    2. The specific segment within that industry (e.g., Commercial Banking, Oncology, E-commerce).\n    3. Key products, services, or offerings (as a list of strings).\n    4. Strategic focus areas or priorities (as a list of strings, e.g., improving efficiency, customer experience, expansion).\n\n    Provide the output *only* as a structured JSON format with the keys: \"industry\", \"segment\", \"offerings\", \"strategic_focus\".\n    If information for a key is not found, use \"N/A\" or an empty list [] where appropriate (e.g., offerings: []). Do not include any other text, explanation, or markdown formatting (like ```json) outside the JSON object.\n\n    --- Text Snippets ---\n    " ++
  pyTake 7000 all_search_text ++
  " # Limit text length slightly more conservatively for safety\n\n    --- JSON Output ---\n    "

/-- The initial `research_data` dict. -/
def researchBase (name : String) (search : SearchFun) : PyDict :=
  [("input_name", .str name), ("industry", .null), ("segment", .null),
   ("offerings", .null), ("strategic_focus", .null),
   ("search_results", .arr ((allResearchItems name search).map itemJson))]

/-- Set the four per-field error markers `f"Error: {e}"` used by the
outer `except` handler of `research_agent`. -/
def setErrMarkers (d : PyDict) (e : String) : PyDict :=
  insertPy (insertPy (insertPy (insertPy d "industry" (.str ("Error: " ++ e)))
    "segment" (.str ("Error: " ++ e)))
    "offerings" (.arr [.str ("Error: " ++ e)]))
    "strategic_focus" (.arr [.str ("Error: " ++ e)])

/-- The persistent-parse-failure marker string. -/
def parseFailMsg : String := "Extraction Failed (Parsing Error)"

/-- Set the four parse-failure markers. -/
def setParseMarkers (d : PyDict) : PyDict :=
  insertPy (insertPy (insertPy (insertPy d "industry" (.str parseFailMsg))
    "segment" (.str parseFailMsg))
    "offerings" (.arr [.str parseFailMsg]))
    "strategic_focus" (.arr [.str parseFailMsg])

/-- Agent 1, `research_agent`.  Returns `none` when the aggregated search text is
empty; otherwise always returns a profile dict (every exception in the
LLM/parse section is caught and degraded to marker fields, and the final
lines force a non-`None` `industry`). -/
def research_agent (name : String) (search : SearchFun) (gen : GenFun) : Option PyDict :=
  let research_data := researchBase name search
  let all_search_text := allSearchText name search
  if all_search_text = "" then none
  else
    let prompt := researchPrompt name all_search_text
    let afterLLM : PyDict :=
      match gen prompt with
      | .error e => setErrMarkers research_data e
      | .ok raw =>
        let t := pyStrip raw
        match extract_object_tiers t with
        | some v =>
          match dictUpdateJson research_data v with
          | .ok d2 => d2
          | .error e => setErrMarkers research_data e
        | none => setParseMarkers research_data
    let final :=
      match dictGet afterLLM "industry" with
      | none => insertPy afterLLM "industry" (.str "N/A")
      | some .null => insertPy afterLLM "industry" (.str "N/A")
      | some _ => afterLLM
    some final

/-! ### The shared insufficient-research gate -/

/-- The gate expression
`not research_data or research_data.get("industry") in [None, "N/A"] or
"Error" in research_data.get("industry", "")` shared (textually
identical) by `use_case_generation_agent`,
`optional_genai_proposer_agent` and `orchestrator`.  The `.error` result
models the `TypeError` Python raises when `industry` holds a
non-iterable value (number or boolean), reached only when the first two
disjuncts are false. -/
def gateCheck (rd : Option PyDict) : Except String Bool :=
  match rd with
  | none => .ok true
  | some d =>
    if d.isEmpty then .ok true
    else
      match dictGet d "industry" with
      | none => .ok true
      | some .null => .ok true
      | some (.str s) => if s = "N/A" then .ok true else .ok (substrB "Error" s)
      | some (.arr xs) =>
        .ok (xs.any (fun x => match x with | .str t => t = "Error" | _ => false))
      | some (.obj kvs) => .ok (kvs.any (fun kv => kv.1 == "Error"))
      | some (.bool _) => .error "argument of type is not iterable"
      | some (.num _) => .error "argument of type is not iterable"

/-- All-strings check for Python's `", ".join`. -/
def allStrs : List Json → Option (List String)
  | [] => some []
  | .str s :: xs => (allStrs xs).map (fun ss => s :: ss)
  | _ :: _ => none

/-- Model of `", ".join(xs)`; `.error` models the `TypeError` on a non-string
element. -/
def joinStrs (xs : List Json) : Except String String :=
  match allStrs xs with
  | some ss => .ok (String.intercalate ", " ss)
  | none => .error "sequence item expected str instance"

/-- Model of `", ".join(v if isinstance(v, list) and v else [default])`:
a non-list or empty-list value falls back to the default. -/
def joinField (v : Option Json) (dflt : String) : Except String String :=
  match v with
  | some (.arr (x :: xs)) => joinStrs (x :: xs)
  | _ => .ok dflt

/-! ### Agent 2: `use_case_generation_agent` -/

/-- The four trend query templates. -/
def trendQueries (industry segment : String) : List String :=
  ["AI trends in " ++ industry ++ " sector",
   "Generative AI applications " ++ segment,
   "Machine Learning use cases " ++ industry ++ " operations",
   industry ++ " companies using AI for customer experience"]

/-- The fixed block of hardcoded illustrative industry insights appended
to the trend text. -/
def hypothetical_insights (industry : String) : String :=
  "\nBased on recent reports from McKinsey and Deloitte on digital transformation in the " ++
  industry ++
  " sector:\n- Companies are seeing significant ROI from AI in supply chain forecasting.\n- GenAI is increasingly used for personalizing customer communication and support.\n- ML models are improving fraud detection rates by over 30%.\n- Automation of routine tasks using AI frees up employees for strategic work.\n"

/-- The value of `trend_snippets` after the searches and the unconditional append of
the insights block (before the `[:7000]` truncation in the prompt). -/
def use_case_trend_text (industry segment : String) (search : SearchFun) : String :=
  String.join (catLists ((trendQueries industry segment).map
    (fun q => (search q 3).map itemText))) ++ hypothetical_insights industry

/-- The use-case generation prompt; the `[:7000]` truncation of the
trend text is part of the f-string. -/
def use_case_prompt_core (company industry segment offerings focus trend : String) : String :=
  "\nBased on the following research about \"" ++ company ++ "\", which is in the \"" ++
  industry ++ "\" sector,\nspecifically the \"" ++ segment ++
  "\" segment, offering products/services like \"" ++ offerings ++
  "\",\nand focusing strategically on areas like \"" ++ focus ++
  "\".\n\nAlso consider the following industry trends and insights regarding AI, ML, and Generative AI:\n--- Industry Trends/Insights ---\n" ++
  pyTake 7000 trend ++
  " # Limit trend text\n\nPropose a list of 5-10 relevant AI/ML/GenAI use cases for \"" ++ company ++
  "\".\nFor each use case:\n1. Give it a clear title.\n2. Briefly describe the problem it solves or the opportunity it addresses.\n3. Explain how AI/ML/GenAI is applied.\n4. Mention the potential benefit (e.g., improve process X, enhance customer Y, boost operational efficiency Z).\n5. Briefly mention *why* this use case is relevant to the company/industry context (link to their offerings, focus areas, or industry trends).\n\nProvide the output *only* as a JSON list of objects, where each object has keys: \"title\", \"description\", \"ai_application\", \"potential_benefit\", \"relevance\". Do not include any other text, explanation, or markdown formatting (like ```json) outside the JSON array. If you cannot think of specific relevant use cases based on this information, return an empty JSON array [].\n\n--- JSON Output ---\n"

/-- Agent 2, `use_case_generation_agent`.  The `.error` result models an uncaught
`TypeError` from `", ".join` on an ill-typed profile field (raised
outside the `try` block). -/
def use_case_generation_agent (rd : Option PyDict) (search : SearchFun) (gen : GenFun) :
    Except String (List Json) :=
  match gateCheck rd with
  | .error e => .error e
  | .ok true => .ok []
  | .ok false =>
    let d := rd.getD []
    let industry := dictGetD d "industry" (.str "a general industry")
    let segment := dictGetD d "segment" industry
    match joinField (dictGet d "offerings") "various products/services" with
    | .error e => .error e
    | .ok offerings =>
      match joinField (dictGet d "strategic_focus") "improving operations and customer experience" with
      | .error e => .error e
      | .ok focus_areas =>
        let company_name := dictGetD d "input_name" (.str "The company")
        let trend := use_case_trend_text (pyStr industry) (pyStr segment) search
        let prompt := use_case_prompt_core (pyStr company_name) (pyStr industry)
          (pyStr segment) offerings focus_areas trend
        .ok (match gen prompt with
          | .error _ => []
          | .ok raw => (extract_list_pair (pyStrip raw)).1)

/-! ### Agent 3: `resource_collection_agent` -/

/-- One collected resource entry `{"title": ..., "link": ..., "snippet": ...}`. -/
structure RLink where
  title : String
  link : String
  snippet : String

/-- Append a result item to a use case's link list unless its link is
missing, empty, or already present (first occurrence wins). -/
def addLink (acc : List RLink) (it : SearchItem) : List RLink :=
  match it.link with
  | none => acc
  | some l =>
    if l = "" then acc
    else if (acc.map RLink.link).contains l then acc
    else acc ++ [⟨it.title.getD "No Title", l, it.snippet.getD "N/A"⟩]

/-- The deduplicated link list collected from a stream of result items. -/
def collectLinks (items : List SearchItem) : List RLink := items.foldl addLink []

/-- The two resource queries for one use-case title. -/
def rcaQueries (title : Json) : List String :=
  [pyStr title ++ " dataset site:kaggle.com OR site:huggingface.co/datasets OR site:github.com",
   pyStr title ++ " github code OR example site:github.com"]

/-- Is the value usable as a Python dict key (hashable)? -/
def hashableJson : Json → Bool
  | .arr _ => false
  | .obj _ => false
  | _ => true

/-- Model of `collected_links[title] = ...`: Python dict assignment over
parsed-JSON keys (replace in place, else append). -/
def mapSet (m : List (Json × List RLink)) (k : Json) (v : List RLink) :
    List (Json × List RLink) :=
  if m.any (fun kv => jsonBeq kv.1 k) then
    m.map (fun kv => if jsonBeq kv.1 k then (k, v) else kv)
  else m ++ [(k, v)]

/-- Process one use case: read its title (`.get` on a non-dict raises
`AttributeError`; an unhashable title raises `TypeError`), run the two
resource searches (`num_results=2`) and store the deduplicated links. -/
def rcaStep (search : SearchFun) (m : List (Json × List RLink)) (uc : Json) :
    Except String (List (Json × List RLink)) :=
  match uc with
  | .obj kvs =>
    let title := dictGetD kvs "title" (.str "Untitled Use Case")
    if hashableJson title then
      .ok (mapSet m title (collectLinks (catLists ((rcaQueries title).map (fun q => search q 2)))))
    else .error "unhashable type"
  | _ => .error "object has no attribute get"

/-- Fold `rcaStep` over the use cases. -/
def rcaFold (search : SearchFun) (m : List (Json × List RLink)) :
    List Json → Except String (List (Json × List RLink))
  | [] => .ok m
  | uc :: ucs =>
    match rcaStep search m uc with
    | .error e => .error e
    | .ok m2 => rcaFold search m2 ucs

/-- Agent 3, `resource_collection_agent` (the `llm_model` parameter is unused by
the source as well). -/
def resource_collection_agent (use_cases : List Json) (search : SearchFun) (_gen : GenFun) :
    Except String (List (Json × List RLink)) :=
  if use_cases.isEmpty then .ok []
  else rcaFold search [] use_cases

/-! ### Agent 4: `optional_genai_proposer_agent` -/

/-- The fixed fallback suggestion substituted when the generated
sequence is empty. -/
def fallbackSuggestion : Json :=
  .obj [("title", .str "Generic AI-Powered Chatbot for FAQs"),
    ("application", .str "Implement a chatbot on the company website or internal portal to answer frequently asked questions."),
    ("potential_benefit", .str "Improve efficiency by automating responses to common queries, free up staff time, provide 24/7 support."),
    ("fit_area", .str "Customer Service, Internal Operations, HR")]

/-- The general-GenAI suggestion prompt. -/
def suggestion_prompt_core (company industry segment offerings focus : String) : String :=
  "\nConsidering \"" ++ company ++ "\" in the \"" ++ industry ++
  "\" sector, particularly the \"" ++ segment ++ "\" segment,\nwith offerings like \"" ++
  offerings ++ "\" and focusing on \"" ++ focus ++
  "\".\n\nPropose potential applications for general-purpose Generative AI solutions within this context.\nThink about solutions like:\n- AI-powered internal document search or knowledge base chatbots.\n- Automated report generation or summarization (e.g., market reports, performance summaries).\n- AI-powered customer support chatbots or virtual assistants.\n- Automated content creation (e.g., marketing copy, product descriptions).\n\nProvide the output *only* as a JSON list of objects, where each object has keys: \"title\", \"application\", \"potential_benefit\", \"fit_area\". Do not include any other text, explanation, or markdown formatting (like ```json) outside the JSON array.\nIf you cannot think of specific suggestions relevant to this context, return an empty JSON array [].\n\n--- JSON Output ---\n"

/-- Agent 4, `optional_genai_proposer_agent`.  After the gate, generation and
parsing degrade to `[]`, and an empty sequence is replaced by exactly
one fixed fallback suggestion. -/
def optional_genai_proposer_agent (rd : Option PyDict) (gen : GenFun) :
    Except String (List Json) :=
  match gateCheck rd with
  | .error e => .error e
  | .ok true => .ok []
  | .ok false =>
    let d := rd.getD []
    let industry := dictGetD d "industry" (.str "a general industry")
    let segment := dictGetD d "segment" industry
    match joinField (dictGet d "offerings") "various products/services" with
    | .error e => .error e
    | .ok offerings =>
      match joinField (dictGet d "strategic_focus") "improving operations and customer experience" with
      | .error e => .error e
      | .ok focus_areas =>
        let company_name := dictGetD d "input_name" (.str "The company")
        let prompt := suggestion_prompt_core (pyStr company_name) (pyStr industry)
          (pyStr segment) offerings focus_areas
        let suggestions : List Json :=
          match gen prompt with
          | .error _ => []
          | .ok raw => (extract_list_pair (pyStrip raw)).1
        .ok (if suggestions.isEmpty then [fallbackSuggestion] else suggestions)

/-! ### The orchestrator -/

/-- The terminal result bundle. -/
structure Bundle where
  use_cases : List Json
  resource_links : List (Json × List RLink)
  genai_suggestions : List Json
  research_data : Option PyDict
  status : String

/-- The failure bundle returned when research fails the gate. -/
def mkFailedBundle (rd : Option PyDict) : Bundle :=
  ⟨[], [], [], rd, "Failed Research"⟩

/-- The `orchestrator`: research, gate, then the three remaining stages in
sequence.  `.error` models an exception escaping to the caller. -/
def orchestrator (name : String) (search : SearchFun) (gen : GenFun) : Except String Bundle :=
  let research_output := research_agent name search gen
  match gateCheck research_output with
  | .error e => .error e
  | .ok true => .ok (mkFailedBundle research_output)
  | .ok false =>
    match use_case_generation_agent research_output search gen with
    | .error e => .error e
    | .ok use_cases =>
      match resource_collection_agent use_cases search gen with
      | .error e => .error e
      | .ok resource_links =>
        match optional_genai_proposer_agent research_output gen with
        | .error e => .error e
        | .ok genai_suggestions =>
          .ok ⟨use_cases, resource_links, genai_suggestions, research_output, "Success"⟩

/-- The deployed entry point: the orchestrator run with the raw search
backend wrapped by `perform_GoogleSearch`. -/
def orchestrate_entry (name : String) (raw : RawSearch) (gen : GenFun) : Except String Bundle :=
  orchestrator name (perform_GoogleSearch raw) gen

/-- Does an `Except` computation return normally? -/
def exceptOk : Except String α → Bool
  | .ok _ => true
  | .error _ => false

/-- The stream of result items fetched for one use-case title, in
encounter order (first query's items, then the second's). -/
def rcaStream (search : SearchFun) (title : Json) : List SearchItem :=
  catLists ((rcaQueries title).map (fun q => search q 2))

/-- The entry built from a result item by `resource_collection_agent`. -/
def mkEntry (it : SearchItem) : RLink :=
  ⟨it.title.getD "No Title", it.link.getD "", it.snippet.getD "N/A"⟩

/-- Does this item carry exactly this link? -/
def isHit (l : String) (it : SearchItem) : Bool := it.link == some l

/-- Well-typedness of the two list-valued profile fields as required by
the `", ".join` calls: each join either takes its default or joins a
list of strings. -/
def JoinsOk (d : PyDict) : Prop :=
  (∃ s, joinField (dictGet d "offerings") "various products/services" = .ok s) ∧
  (∃ s, joinField (dictGet d "strategic_focus")
    "improving operations and customer experience" = .ok s)

/-- Well-typedness of one parsed use case as required by
`resource_collection_agent`: a dict (`.get` exists) whose title is
hashable. -/
def ucOk : Json → Prop
  | .obj kvs => hashableJson (dictGetD kvs "title" (.str "Untitled Use Case")) = true
  | _ => False

/-! ### Concrete collaborator behaviours used as test vectors -/

/-- A fixed search result item. -/
def cItem : SearchItem := ⟨some "T", some "S", some "L"⟩

/-- A raw search backend returning one fixed item for every query. -/
def cSearchOne : RawSearch := fun _ _ => .ok [cItem]

/-- A raw search backend returning zero results for every query. -/
def cSearchNone : RawSearch := fun _ _ => .ok []

/-- A generator that always raises. -/
def cGenRaise : GenFun := fun _ => .error "boom"

/-- A generator answering with a JSON object whose `industry` is the
number `5`. -/
def cGenNumIndustry : GenFun := fun _ => .ok "\x7b\"industry\": 5\x7d"

/-- A generator answering with a JSON object that overwrites
`input_name`. -/
def cGenHack : GenFun := fun _ =>
  .ok "\x7b\"industry\": \"Tech\", \"input_name\": \"HACKED\"\x7d"

/-- A generator answering with prose that embeds a JSON object. -/
def cGenProseObj : GenFun := fun _ =>
  .ok "Sure! Here you go: \x7b\"industry\": \"Tech\"\x7d Hope that helps."

/-- A profile whose gate passes but whose `offerings` is a non-string
list. -/
def cProfileBadOfferings : PyDict :=
  [("industry", .str "Tech"), ("offerings", .arr [.num 5])]

/-- A well-formed minimal profile. -/
def cProfileTech : PyDict := [("industry", .str "Tech")]

/-- A profile carrying the error-marker convention. -/
def cProfileErr : PyDict := [("industry", .str "Error: timeout")]

/-- An 8000-character snippet. -/
def bigSnippet : String := ⟨List.replicate 8000 'a'⟩

/-- A search backend whose single result has a very long snippet. -/
def cSearchBig : SearchFun := fun _ _ => [⟨some "T", some bigSnippet, some "L"⟩]

/-- A search function returning two items sharing one link. -/
def cSearchDupFun : SearchFun := fun _ _ =>
  [⟨some "A", some "sA", some "L1"⟩, ⟨some "B", some "sB", some "L1"⟩]

/-! ## Round-trip: `json_loads (serialize v) = some v` -/

/-- Induction over `Json` with membership hypotheses for the nested
lists. -/
theorem Json.inductionOn (P : Json → Prop)
    (hnull : P .null) (hbool : ∀ b, P (.bool b)) (hnum : ∀ n, P (.num n))
    (hstr : ∀ s, P (.str s))
    (harr : ∀ xs, (∀ x ∈ xs, P x) → P (.arr xs))
    (hobj : ∀ kvs, (∀ kv ∈ kvs, P kv.2) → P (.obj kvs)) : ∀ j, P j
  | .null => hnull
  | .bool b => hbool b
  | .num n => hnum n
  | .str s => hstr s
  | .arr xs => harr xs (fun x hx =>
      Json.inductionOn P hnull hbool hnum hstr harr hobj x)
  | .obj kvs => hobj kvs (fun kv hkv =>
      Json.inductionOn P hnull hbool hnum hstr harr hobj kv.2)
termination_by j => sizeOf j
decreasing_by
  · exact Nat.lt_trans (List.sizeOf_lt_of_mem hx) (by simp)
  · calc sizeOf kv.2 < sizeOf kv := by cases kv; simp
      _ < sizeOf kvs := List.sizeOf_lt_of_mem hkv
      _ < sizeOf (Json.obj kvs) := by simp

theorem canonicalList_mem {xs : List Json} (h : canonicalList xs = true) :
    ∀ x ∈ xs, Json.canonical x = true := by
  induction xs with
  | nil => intro x hx; cases hx
  | cons a as ih =>
    rw [canonicalList] at h
    intro x hx
    rcases List.mem_cons.mp hx with h1 | h2
    · subst h1; exact ((Bool.and_eq_true _ _).mp h).1
    · exact ih ((Bool.and_eq_true _ _).mp h).2 x h2

theorem canonicalKVs_mem {kvs : List (String × Json)} (h : canonicalKVs kvs = true) :
    ∀ kv ∈ kvs, Json.canonical kv.2 = true := by
  induction kvs with
  | nil => intro kv hkv; cases hkv
  | cons a as ih =>
    rw [canonicalKVs] at h
    intro kv hkv
    rcases List.mem_cons.mp hkv with h1 | h2
    · subst h1; exact ((Bool.and_eq_true _ _).mp h).1
    · exact ih ((Bool.and_eq_true _ _).mp h).2 kv h2

theorem insertPy_fresh (d : PyDict) (k : String) (v : Json)
    (h : ∀ kv ∈ d, kv.1 ≠ k) : insertPy d k v = d ++ [(k, v)] := by
  rw [insertPy, if_neg]
  simp only [List.any_eq_true, beq_iff_eq, not_exists]
  intro kv
  intro ⟨hm, he⟩
  exact h kv hm he

theorem dictUpdateObj_nodup (kvs : List (String × Json)) :
    ∀ d : PyDict, ((d ++ kvs).map Prod.fst).Nodup → dictUpdateObj d kvs = d ++ kvs := by
  induction kvs with
  | nil => intro d _; simp [dictUpdateObj]
  | cons a as ih =>
    intro d hnd
    have hfresh : ∀ kv ∈ d, kv.1 ≠ a.1 := by
      intro kv hm he
      have hnd2 := hnd
      rw [List.map_append, List.map_cons] at hnd2
      have hdisj := (List.nodup_append.mp hnd2).2.2
      have hmem : a.1 ∈ d.map Prod.fst := by
        rw [← he]; exact List.mem_map_of_mem _ hm
      exact List.disjoint_left.mp hdisj hmem (List.mem_cons_self _ _)
    have hstep : insertPy d a.1 a.2 = d ++ [a] := by
      rw [insertPy_fresh d a.1 a.2 hfresh]
    rw [dictUpdateObj] at *
    rw [List.foldl_cons, hstep, ← dictUpdateObj]
    rw [ih (d ++ [a]) (by simpa using hnd)]
    simp

theorem mkDict_nodup (kvs : List (String × Json)) (h : (kvs.map Prod.fst).Nodup) :
    mkDict kvs = kvs := by
  have := dictUpdateObj_nodup kvs [] (by simpa using h)
  simpa [mkDict, dictUpdateObj] using this

/-! ### Digit lemmas -/

theorem digitChar_toNat {n : Nat} (h : n < 10) : (digitChar n).toNat = 48 + n := by
  interval_cases n <;> decide

theorem isDigitChar_digitChar {n : Nat} (h : n < 10) : isDigitChar (digitChar n) = true := by
  interval_cases n <;> decide

theorem digitVal_digitChar {n : Nat} (h : n < 10) : digitVal (digitChar n) = n := by
  interval_cases n <;> decide

theorem natDigitsAux_digits :
    ∀ fuel n, n < fuel → ∀ c ∈ natDigitsAux fuel n, isDigitChar c = true := by
  intro fuel
  induction fuel with
  | zero => intro n h; omega
  | succ f ih =>
    intro n h c hc
    rw [natDigitsAux] at hc
    by_cases h10 : n < 10
    · rw [if_pos h10] at hc
      simp only [List.mem_singleton] at hc
      subst hc; exact isDigitChar_digitChar h10
    · rw [if_neg h10] at hc
      rcases List.mem_append.mp hc with h1 | h2
      · exact ih (n / 10) (by omega) c h1
      · simp only [List.mem_singleton] at h2
        subst h2; exact isDigitChar_digitChar (Nat.mod_lt _ (by omega))

theorem natDigitsAux_ne_nil : ∀ fuel n, n < fuel → natDigitsAux fuel n ≠ [] := by
  intro fuel
  induction fuel with
  | zero => intro n h; omega
  | succ f _ =>
    intro n _
    rw [natDigitsAux]
    by_cases h10 : n < 10
    · rw [if_pos h10]; simp
    · rw [if_neg h10]; simp

theorem digitsVal_append_last (ds : List Char) (c : Char) :
    digitsVal (ds ++ [c]) = 10 * digitsVal ds + digitVal c := by
  simp [digitsVal, List.foldl_append]

theorem digitsVal_natDigitsAux : ∀ fuel n, n < fuel → digitsVal (natDigitsAux fuel n) = n := by
  intro fuel
  induction fuel with
  | zero => intro n h; omega
  | succ f ih =>
    intro n h
    rw [natDigitsAux]
    by_cases h10 : n < 10
    · rw [if_pos h10]
      simp [digitsVal, digitVal_digitChar h10]
    · rw [if_neg h10, digitsVal_append_last, ih (n / 10) (by omega),
        digitVal_digitChar (Nat.mod_lt _ (by omega))]
      omega

theorem natDigits_digits (n : Nat) : ∀ c ∈ natDigits n, isDigitChar c = true :=
  natDigitsAux_digits (n + 1) n (by omega)

theorem natDigits_ne_nil (n : Nat) : natDigits n ≠ [] :=
  natDigitsAux_ne_nil (n + 1) n (by omega)

theorem digitsVal_natDigits (n : Nat) : digitsVal (natDigits n) = n :=
  digitsVal_natDigitsAux (n + 1) n (by omega)

/-- Head shape of the rest of the input, ruling out digit extension. -/
def noDigitHead : List Char → Prop
  | [] => True
  | c :: _ => isDigitChar c = false

theorem takeDigits_exact (ds : List Char) (rest : List Char)
    (hds : ∀ c ∈ ds, isDigitChar c = true) (hr : noDigitHead rest) :
    takeDigits (ds ++ rest) = (ds, rest) := by
  induction ds with
  | nil =>
    cases rest with
    | nil => rfl
    | cons c cs =>
      simp only [List.nil_append, takeDigits]
      rw [if_neg (by simp [show isDigitChar c = false from hr])]
  | cons d ds' ih =>
    have hih := ih (fun c hc => hds c (List.mem_cons_of_mem _ hc))
    simp only [List.cons_append, takeDigits, if_pos (hds d (List.mem_cons_self _ _))]
    simp [hih]

/-! ### String-literal lemmas -/

theorem parseStrBody_escStr (cs : List Char) (rest : List Char) :
    parseStrBody (escStr cs ++ '"' :: rest) = some (cs, rest) := by
  induction cs with
  | nil =>
    simp [escStr, parseStrBody.eq_def]
  | cons c cs' ih =>
    simp only [escStr, escChar]
    by_cases hc : c = '"' ∨ c = '\\'
    · rw [if_pos hc]
      rcases hc with h | h <;> subst h <;>
        (rw [List.cons_append, List.cons_append, parseStrBody.eq_def]
         simp [escDecode, ih])
    · rw [if_neg hc]
      push_neg at hc
      simp only [List.cons_append, List.nil_append]
      rw [parseStrBody.eq_def]
      simp only []
      rw [if_neg hc.1, if_neg hc.2, ih]

/-! ### Whitespace and head-shape lemmas -/

theorem skipWs_not_ws {c : Char} (h : isWsChar c = false) (l : List Char) :
    skipWs (c :: l) = c :: l := by
  rw [skipWs, if_neg (by simp [h])]

theorem digit_not_ws {c : Char} (h : isDigitChar c = true) : isWsChar c = false := by
  simp only [isDigitChar, Bool.and_eq_true, decide_eq_true_eq] at h
  simp only [isWsChar]
  have h32 : c.toNat ≠ 32 := by omega
  have h9 : c.toNat ≠ 9 := by omega
  have h10 : c.toNat ≠ 10 := by omega
  have h13 : c.toNat ≠ 13 := by omega
  simp only [Bool.or_eq_false_iff, decide_eq_false_iff_not]
  exact ⟨⟨⟨fun he => h32 (by rw [he]; rfl), fun he => h9 (by rw [he]; rfl)⟩,
    fun he => h10 (by rw [he]; rfl)⟩, fun he => h13 (by rw [he]; rfl)⟩

theorem digit_ne {c : Char} (h : isDigitChar c = true) {d : Char}
    (hd : d.toNat < 48 ∨ 57 < d.toNat) : c ≠ d := by
  simp only [isDigitChar, Bool.and_eq_true, decide_eq_true_eq] at h
  intro he
  subst he
  omega

/-- Unfolded serialization of the null literal. -/
theorem serJ_null_eq : serJ .null = 'n' :: 'u' :: 'l' :: 'l' :: [] := rfl

/-- Unfolded serialization of the true literal. -/
theorem serJ_true_eq : serJ (.bool true) = 't' :: 'r' :: 'u' :: 'e' :: [] := rfl

/-- Unfolded serialization of the false literal. -/
theorem serJ_false_eq : serJ (.bool false) = 'f' :: 'a' :: 'l' :: 's' :: 'e' :: [] := rfl

/-- The serialization of a value is non-empty, starts with a
non-whitespace character that is neither `]` nor `}`, and when the value
is not a number its head is not a digit and the whole serialization ends
in a non-digit. -/
theorem serJ_shape (v : Json) : ∃ c t, serJ v = c :: t ∧ isWsChar c = false ∧
    c ≠ ']' ∧ c ≠ '}' := by
  cases v with
  | null => exact ⟨'n', _, serJ_null_eq, by decide, by decide, by decide⟩
  | bool b =>
    cases b
    · exact ⟨'f', _, serJ_false_eq, by decide, by decide, by decide⟩
    · exact ⟨'t', _, serJ_true_eq, by decide, by decide, by decide⟩
  | num n =>
    rw [serJ, intChars]
    by_cases hn : n < 0
    · rw [if_pos hn]
      exact ⟨'-', _, rfl, by decide, by decide, by decide⟩
    · rw [if_neg hn]
      obtain ⟨d, ds, hds⟩ := List.exists_cons_of_ne_nil (natDigits_ne_nil n.toNat)
      have hd : isDigitChar d = true := by
        apply natDigits_digits
        rw [hds]; exact List.mem_cons_self _ _
      exact ⟨d, ds, hds, digit_not_ws hd, digit_ne hd (by decide), digit_ne hd (by decide)⟩
  | str s => exact ⟨'"', _, rfl, by decide, by decide, by decide⟩
  | arr xs => exact ⟨'[', _, rfl, by decide, by decide, by decide⟩
  | obj kvs => exact ⟨'{', _, rfl, by decide, by decide, by decide⟩

/-! ### Stepping lemmas for the parser -/

theorem skipWs_ws_cons {c : Char} (h : isWsChar c = true) (l : List Char) :
    skipWs (c :: l) = skipWs l := by
  rw [skipWs, if_pos (by simp [h])]

theorem parseVal_ws_cons {c : Char} (h : isWsChar c = true) (fuel : Nat) (s : List Char) :
    parseVal fuel (c :: s) = parseVal fuel s := by
  cases fuel with
  | zero => rfl
  | succ f =>
    rw [parseVal.eq_def, parseVal.eq_def]
    simp only [skipWs_ws_cons h]

theorem parseElems_ws_cons {c : Char} (h : isWsChar c = true) (fuel : Nat) (s : List Char) :
    parseElems fuel (c :: s) = parseElems fuel s := by
  cases fuel with
  | zero => rfl
  | succ f =>
    rw [parseElems.eq_def, parseElems.eq_def]
    simp only [parseVal_ws_cons h]

theorem parseMembers_ws_cons {c : Char} (h : isWsChar c = true) (fuel : Nat) (s : List Char) :
    parseMembers fuel (c :: s) = parseMembers fuel s := by
  cases fuel with
  | zero => rfl
  | succ f =>
    rw [parseMembers.eq_def, parseMembers.eq_def]
    simp only [skipWs_ws_cons h]

/-- The round-trip property of a single value: its serialization,
followed by any non-digit-extending rest, parses back to exactly the
value, at any sufficient fuel. -/
def RoundTrips (v : Json) : Prop :=
  ∀ fuel rest, (serJ v).length ≤ fuel → noDigitHead rest →
    parseVal fuel (serJ v ++ rest) = some (v, rest)

theorem serJ_length_pos (v : Json) : 1 ≤ (serJ v).length := by
  obtain ⟨c, t, he, -, -, -⟩ := serJ_shape v
  rw [he]
  simp

theorem parseElems_ser (xs : List Json) (hIH : ∀ x ∈ xs, RoundTrips x) (hne : xs ≠ [])
    (fuel : Nat) (rest : List Char) (hlen : (serArr xs).length < fuel) :
    parseElems fuel (serArr xs ++ ']' :: rest) = some (xs, rest) := by
  induction xs generalizing fuel rest with
  | nil => exact absurd rfl hne
  | cons x xs' ih =>
    have hx : RoundTrips x := hIH x (List.mem_cons_self _ _)
    have hxlen : 1 ≤ (serJ x).length := serJ_length_pos x
    cases xs' with
    | nil =>
      have hl : (serArr [x]).length = (serJ x).length := by rw [serArr]
      obtain ⟨f, rfl⟩ : ∃ f, fuel = f + 1 := ⟨fuel - 1, by omega⟩
      rw [parseElems.eq_def]
      simp only []
      rw [serArr]
      rw [hx f (']' :: rest) (by rw [serArr] at hlen; omega)
        (show isDigitChar ']' = false from by decide)]
      simp only []
      rw [skipWs_not_ws (by decide)]
      simp
    | cons y ys =>
      have hlen2 : (serArr (x :: y :: ys)).length =
          (serJ x).length + 2 + (serArr (y :: ys)).length := by
        rw [serArr]; simp only [List.length_append, List.length_cons, List.length_nil]; omega
      obtain ⟨f, rfl⟩ : ∃ f, fuel = f + 1 := ⟨fuel - 1, by omega⟩
      rw [parseElems.eq_def]
      simp only []
      rw [serArr, List.append_assoc, List.cons_append, List.cons_append]
      rw [hx f (',' :: ' ' :: (serArr (y :: ys) ++ ']' :: rest)) (by omega)
        (show isDigitChar ',' = false from by decide)]
      simp only []
      rw [skipWs_not_ws (by decide)]
      simp only [Char.reduceEq, reduceIte]
      rw [parseElems_ws_cons (by decide)]
      rw [ih (fun z hz => hIH z (List.mem_cons_of_mem _ hz)) (by simp) f rest
        (by omega)]

theorem serObj_cons_expand (kv : String × Json) (tail : List Char) :
    serObj [kv] ++ tail = '"' :: (escStr kv.1.data ++ '"' :: ':' :: ' ' :: (serJ kv.2 ++ tail)) := by
  rw [serObj, serStrChars]
  simp

theorem parseMembers_ser (kvs : List (String × Json)) (hIH : ∀ kv ∈ kvs, RoundTrips kv.2)
    (hne : kvs ≠ []) (fuel : Nat) (rest : List Char)
    (hlen : (serObj kvs).length < fuel) :
    parseMembers fuel (serObj kvs ++ '}' :: rest) = some (kvs, rest) := by
  induction kvs generalizing fuel rest with
  | nil => exact absurd rfl hne
  | cons kv ps ih =>
    have hv : RoundTrips kv.2 := hIH kv (List.mem_cons_self _ _)
    have hvlen : 1 ≤ (serJ kv.2).length := serJ_length_pos kv.2
    cases ps with
    | nil =>
      have hl : (serObj [kv]).length = (escStr kv.1.data).length + 4 + (serJ kv.2).length := by
        rw [serObj, serStrChars]; simp only [List.length_append, List.length_cons, List.length_nil]; omega
      obtain ⟨f, rfl⟩ : ∃ f, fuel = f + 1 := ⟨fuel - 1, by omega⟩
      rw [parseMembers.eq_def]
      simp only []
      rw [serObj_cons_expand]
      rw [skipWs_not_ws (by decide)]
      simp only [Char.reduceEq, reduceIte]
      rw [parseStrBody_escStr]
      simp only []
      rw [skipWs_not_ws (by decide)]
      simp only [Char.reduceEq, reduceIte]
      rw [parseVal_ws_cons (by decide)]
      rw [hv f ('}' :: rest) (by omega) (show isDigitChar '}' = false from by decide)]
      simp only []
      rw [skipWs_not_ws (by decide)]
      simp
    | cons p qs =>
      have hlen2 : (serObj (kv :: p :: qs)).length =
          (escStr kv.1.data).length + 6 + (serJ kv.2).length + (serObj (p :: qs)).length := by
        rw [serObj, serStrChars]
        simp only [List.length_append, List.length_cons, List.length_nil]
        omega
      obtain ⟨f, rfl⟩ : ∃ f, fuel = f + 1 := ⟨fuel - 1, by omega⟩
      rw [parseMembers.eq_def]
      simp only []
      have hexp : serObj (kv :: p :: qs) ++ '}' :: rest =
          '"' :: (escStr kv.1.data ++ '"' :: ':' :: ' ' ::
            (serJ kv.2 ++ ',' :: ' ' :: (serObj (p :: qs) ++ '}' :: rest))) := by
        rw [serObj, serStrChars]
        simp
      rw [hexp]
      rw [skipWs_not_ws (by decide)]
      simp only [Char.reduceEq, reduceIte]
      rw [parseStrBody_escStr]
      simp only []
      rw [skipWs_not_ws (by decide)]
      simp only [Char.reduceEq, reduceIte]
      rw [parseVal_ws_cons (by decide)]
      rw [hv f (',' :: ' ' :: (serObj (p :: qs) ++ '}' :: rest)) (by omega)
        (show isDigitChar ',' = false from by decide)]
      simp only []
      rw [skipWs_not_ws (by decide)]
      simp only [Char.reduceEq, reduceIte]
      rw [parseMembers_ws_cons (by decide)]
      rw [ih (fun z hz => hIH z (List.mem_cons_of_mem _ hz)) (by simp) f rest (by omega)]

theorem roundTrips_of_canonical : ∀ v, Json.canonical v = true → RoundTrips v := by
  intro v
  induction v using Json.inductionOn with
  | hnull =>
    intro _ fuel rest hlen hnd
    obtain ⟨f, rfl⟩ : ∃ f, fuel = f + 1 :=
      ⟨fuel - 1, by have := serJ_length_pos .null; omega⟩
    rw [parseVal.eq_def]
    simp only [serJ_null_eq, List.cons_append, List.nil_append]
    rw [skipWs_not_ws (by decide)]
    simp
  | hbool b =>
    intro _ fuel rest hlen hnd
    cases b
    · obtain ⟨f, rfl⟩ : ∃ f, fuel = f + 1 :=
        ⟨fuel - 1, by have := serJ_length_pos (.bool false); omega⟩
      rw [parseVal.eq_def]
      simp only [serJ_false_eq, List.cons_append, List.nil_append]
      rw [skipWs_not_ws (by decide)]
      simp
    · obtain ⟨f, rfl⟩ : ∃ f, fuel = f + 1 :=
        ⟨fuel - 1, by have := serJ_length_pos (.bool true); omega⟩
      rw [parseVal.eq_def]
      simp only [serJ_true_eq, List.cons_append, List.nil_append]
      rw [skipWs_not_ws (by decide)]
      simp
  | hnum n =>
    intro _ fuel rest hlen hnd
    obtain ⟨f, rfl⟩ : ∃ f, fuel = f + 1 :=
      ⟨fuel - 1, by have := serJ_length_pos (.num n); omega⟩
    rw [parseVal.eq_def]
    simp only [serJ, intChars]
    by_cases hn : n < 0
    · rw [if_pos hn]
      simp only [List.cons_append]
      rw [skipWs_not_ws (by decide)]
      simp only [Char.reduceEq, reduceIte]
      obtain ⟨d, ds, hds⟩ := List.exists_cons_of_ne_nil (natDigits_ne_nil n.natAbs)
      rw [takeDigits_exact (natDigits n.natAbs) rest (natDigits_digits _) hnd]
      rw [hds]
      simp only []
      rw [← hds, digitsVal_natDigits]
      have : (-(n.natAbs : Int)) = n := by omega
      rw [this]
    · rw [if_neg hn]
      obtain ⟨d, ds, hds⟩ := List.exists_cons_of_ne_nil (natDigits_ne_nil n.toNat)
      have hd : isDigitChar d = true := by
        apply natDigits_digits
        rw [hds]; exact List.mem_cons_self _ _
      have e1 : d ≠ 'n' := digit_ne hd (by decide)
      have e2 : d ≠ 't' := digit_ne hd (by decide)
      have e3 : d ≠ 'f' := digit_ne hd (by decide)
      have e4 : d ≠ '"' := digit_ne hd (by decide)
      have e5 : d ≠ '[' := digit_ne hd (by decide)
      have e6 : d ≠ '{' := digit_ne hd (by decide)
      have e7 : d ≠ '-' := digit_ne hd (by decide)
      rw [hds, List.cons_append]
      rw [skipWs_not_ws (digit_not_ws hd)]
      simp only []
      rw [if_neg e1, if_neg e2, if_neg e3, if_neg e4, if_neg e5, if_neg e6, if_neg e7,
        if_pos hd]
      rw [← List.cons_append, ← hds]
      rw [takeDigits_exact (natDigits n.toNat) rest (natDigits_digits _) hnd]
      simp only []
      rw [digitsVal_natDigits]
      have : ((n.toNat : Int)) = n := by omega
      rw [this]
  | hstr s =>
    intro _ fuel rest hlen hnd
    obtain ⟨f, rfl⟩ : ∃ f, fuel = f + 1 :=
      ⟨fuel - 1, by have := serJ_length_pos (.str s); omega⟩
    rw [parseVal.eq_def]
    simp only [serJ, serStrChars, List.cons_append, List.append_assoc, List.singleton_append]
    rw [skipWs_not_ws (by decide)]
    simp only [Char.reduceEq, reduceIte]
    rw [parseStrBody_escStr]
    simp only []
    rfl
  | harr xs ihm =>
    intro hcan fuel rest hlen hnd
    obtain ⟨f, rfl⟩ : ∃ f, fuel = f + 1 :=
      ⟨fuel - 1, by have := serJ_length_pos (.arr xs); omega⟩
    rw [parseVal.eq_def]
    simp only [serJ, List.cons_append, List.append_assoc, List.singleton_append,
      List.nil_append]
    rw [skipWs_not_ws (by decide)]
    simp only []
    simp only [Char.reduceEq, reduceIte]
    cases xs with
    | nil =>
      simp only [serArr, List.nil_append]
      rw [skipWs_not_ws (by decide)]
      simp
    | cons x xs' =>
      have hxs : ∀ z ∈ x :: xs', RoundTrips z := by
        intro z hz
        exact ihm z hz (canonicalList_mem (by simpa [Json.canonical] using hcan) z hz)
      obtain ⟨c0, t0, hser, hws0, hnb0, _⟩ := serJ_shape x
      have hhead : serArr (x :: xs') ++ ']' :: rest =
          c0 :: (t0 ++ (serArr (x :: xs')).drop (t0.length + 1) ++ ']' :: rest) := by
        cases xs' with
        | nil => rw [serArr, hser]; simp
        | cons y ys => rw [serArr, hser]; simp
      have hlen2 : (serJ (Json.arr (x :: xs'))).length = (serArr (x :: xs')).length + 2 := by
        rw [serJ]; simp
      rw [hhead, skipWs_not_ws hws0]
      simp only []
      rw [if_neg hnb0, ← hhead]
      rw [parseElems_ser (x :: xs') hxs (by simp) f rest (by omega)]
  | hobj kvs ihm =>
    intro hcan fuel rest hlen hnd
    obtain ⟨f, rfl⟩ : ∃ f, fuel = f + 1 :=
      ⟨fuel - 1, by have := serJ_length_pos (.obj kvs); omega⟩
    have hnodup : (kvs.map Prod.fst).Nodup := by
      rw [Json.canonical, Bool.and_eq_true] at hcan
      exact of_decide_eq_true hcan.1
    rw [parseVal.eq_def]
    simp only [serJ, List.cons_append, List.append_assoc, List.singleton_append,
      List.nil_append]
    rw [skipWs_not_ws (by decide)]
    simp only []
    simp only [Char.reduceEq, reduceIte]
    cases kvs with
    | nil =>
      simp only [serObj, List.nil_append]
      rw [skipWs_not_ws (by decide)]
      simp
    | cons kv ps =>
      have hkvs : ∀ z ∈ kv :: ps, RoundTrips z.2 := by
        intro z hz
        apply ihm z hz
        rw [Json.canonical, Bool.and_eq_true] at hcan
        exact canonicalKVs_mem hcan.2 z hz
      have hhead : serObj (kv :: ps) ++ '}' :: rest =
          '"' :: ((serObj (kv :: ps)).drop 1 ++ '}' :: rest) := by
        cases ps with
        | nil => rw [serObj, serStrChars]; simp
        | cons p qs => rw [serObj, serStrChars]; simp
      have hlen2 : (serJ (Json.obj (kv :: ps))).length = (serObj (kv :: ps)).length + 2 := by
        rw [serJ]; simp
      rw [hhead, skipWs_not_ws (by decide)]
      simp only []
      simp only [Char.reduceEq, reduceIte]
      rw [← hhead]
      rw [parseMembers_ser (kv :: ps) hkvs (by simp) f rest (by omega)]
      simp only []
      rw [mkDict_nodup _ hnodup]

/-- Parsing inverts serialization on every canonical JSON value. -/
theorem json_loads_serialize (v : Json) (h : Json.canonical v = true) :
    json_loads (serialize v) = some v := by
  have hrt := roundTrips_of_canonical v h
  have hp := hrt ((serJ v).length + 1) [] (by omega) trivial
  rw [List.append_nil] at hp
  rw [json_loads]
  rw [show (serialize v).data = serJ v from rfl]
  rw [show (serialize v).length = (serJ v).length from rfl]
  rw [hp]
  simp [skipWs]

theorem digit_not_pyspace {c : Char} (h : isDigitChar c = true) : isPySpace c = false := by
  simp only [isDigitChar, Bool.and_eq_true, decide_eq_true_eq] at h
  have h32 : c.toNat ≠ 32 := by omega
  have h9 : c.toNat ≠ 9 := by omega
  have h10 : c.toNat ≠ 10 := by omega
  have h13 : c.toNat ≠ 13 := by omega
  have h11 : c.toNat ≠ 11 := by omega
  have h12 : c.toNat ≠ 12 := by omega
  simp only [isPySpace, Bool.or_eq_false_iff, decide_eq_false_iff_not]
  exact ⟨⟨⟨⟨⟨fun he => h32 (by rw [he]; rfl), fun he => h9 (by rw [he]; rfl)⟩,
    fun he => h10 (by rw [he]; rfl)⟩, fun he => h13 (by rw [he]; rfl)⟩,
    fun he => h11 (by rw [he]; rfl)⟩, fun he => h12 (by rw [he]; rfl)⟩

theorem serJ_head_not_pyspace (v : Json) :
    ∃ c t, serJ v = c :: t ∧ isPySpace c = false := by
  cases v with
  | null => exact ⟨'n', _, serJ_null_eq, by decide⟩
  | bool b =>
    cases b
    · exact ⟨'f', _, serJ_false_eq, by decide⟩
    · exact ⟨'t', _, serJ_true_eq, by decide⟩
  | num n =>
    rw [serJ, intChars]
    by_cases hn : n < 0
    · rw [if_pos hn]
      exact ⟨'-', _, rfl, by decide⟩
    · rw [if_neg hn]
      obtain ⟨d, ds, hds⟩ := List.exists_cons_of_ne_nil (natDigits_ne_nil n.toNat)
      have hd : isDigitChar d = true := by
        apply natDigits_digits
        rw [hds]; exact List.mem_cons_self _ _
      exact ⟨d, ds, hds, digit_not_pyspace hd⟩
  | str s => exact ⟨'"', _, rfl, by decide⟩
  | arr xs => exact ⟨'[', _, rfl, by decide⟩
  | obj kvs => exact ⟨'{', _, rfl, by decide⟩

theorem serJ_last_not_pyspace (v : Json) :
    ∃ l c, serJ v = l ++ [c] ∧ isPySpace c = false := by
  cases v with
  | null => exact ⟨['n', 'u', 'l'], 'l', serJ_null_eq.trans rfl, by decide⟩
  | bool b =>
    cases b
    · exact ⟨['f', 'a', 'l', 's'], 'e', serJ_false_eq.trans rfl, by decide⟩
    · exact ⟨['t', 'r', 'u'], 'e', serJ_true_eq.trans rfl, by decide⟩
  | num n =>
    rw [serJ, intChars]
    by_cases hn : n < 0
    · rw [if_pos hn]
      obtain ⟨l, c, hlc⟩ := (List.eq_nil_or_concat' (natDigits n.natAbs)).resolve_left
        (natDigits_ne_nil n.natAbs)
      have hc : isDigitChar c = true := by
        apply natDigits_digits
        rw [hlc]; exact List.mem_append_right _ (List.mem_singleton.mpr rfl)
      exact ⟨'-' :: l, c, by rw [hlc]; rfl, digit_not_pyspace hc⟩
    · rw [if_neg hn]
      obtain ⟨l, c, hlc⟩ := (List.eq_nil_or_concat' (natDigits n.toNat)).resolve_left
        (natDigits_ne_nil n.toNat)
      have hc : isDigitChar c = true := by
        apply natDigits_digits
        rw [hlc]; exact List.mem_append_right _ (List.mem_singleton.mpr rfl)
      exact ⟨l, c, hlc, digit_not_pyspace hc⟩
  | str s =>
    rw [serJ, serStrChars]
    exact ⟨'"' :: escStr s.data, '"', by simp, by decide⟩
  | arr xs =>
    rw [serJ]
    exact ⟨'[' :: serArr xs, ']', by simp, by decide⟩
  | obj kvs =>
    rw [serJ]
    exact ⟨'{' :: serObj kvs, '}', by simp, by decide⟩

theorem dropWhile_cons_of_neg {p : Char → Bool} {c : Char} (h : p c = false) (l : List Char) :
    (c :: l).dropWhile p = c :: l := by
  rw [List.dropWhile_cons, if_neg (by simp [h])]

/-- Stripping leaves a serialized JSON value unchanged. -/
theorem pyStrip_serialize (v : Json) : pyStrip (serialize v) = serialize v := by
  obtain ⟨c, t, hser, hsp⟩ := serJ_head_not_pyspace v
  obtain ⟨l, e, hle, hspe⟩ := serJ_last_not_pyspace v
  have hdata : (serialize v).data = serJ v := rfl
  have h1 : (serJ v).dropWhile isPySpace = serJ v := by
    rw [hser]; exact dropWhile_cons_of_neg hsp t
  have h2 : (serJ v).reverse.dropWhile isPySpace = (serJ v).reverse := by
    rw [hle, List.reverse_append, List.reverse_singleton, List.singleton_append]
    exact dropWhile_cons_of_neg hspe _
  rw [pyStrip, hdata, h1, h2, List.reverse_reverse]
  rfl

/-! ### Bracket-salvage lemmas -/

theorem dropWhile_append_of_head {p : Char → Bool} {b : List Char} {c : Char} {t : List Char}
    (hb : b = c :: t) (hc : p c = false) :
    ∀ a, (a ++ b).dropWhile p = a.dropWhile p ++ b := by
  intro a
  induction a with
  | nil =>
    simp only [List.nil_append, List.dropWhile_nil]
    rw [hb]
    exact dropWhile_cons_of_neg hc t
  | cons x a' ih =>
    simp only [List.cons_append, List.dropWhile_cons]
    by_cases hx : p x
    · rw [if_pos (by simp [hx]), if_pos (by simp [hx]), ih]
    · rw [if_neg (by simp [Bool.not_eq_true] at hx; simp [hx]),
        if_neg (by simp [Bool.not_eq_true] at hx; simp [hx])]
      simp

theorem findIdx_append_at {ch : Char} {a : List Char} (h : ch ∉ a) (t : List Char) :
    findIdx (a ++ ch :: t) ch = some a.length := by
  induction a with
  | nil =>
    simp [findIdx]
  | cons x a' ih =>
    have hx : x ≠ ch := fun he => h (by rw [he]; exact List.mem_cons_self _ _)
    simp only [List.cons_append, findIdx, List.append_eq]
    rw [if_neg hx, ih (fun hm => h (List.mem_cons_of_mem _ hm))]
    rfl

/-- Stripping a string with a non-space-fronted, non-space-backed
core: the core is preserved and only the affixes are trimmed. -/
theorem pyStrip_append_core (pre : String) (core : List Char) (suf : String)
    (c0 : Char) (t0 : List Char) (hhead : core = c0 :: t0) (hc0 : isPySpace c0 = false)
    (l0 : List Char) (e0 : Char) (hlast : core = l0 ++ [e0]) (he0 : isPySpace e0 = false) :
    (pyStrip ⟨pre.data ++ core ++ suf.data⟩).data =
      pre.data.dropWhile isPySpace ++ core ++
        (suf.data.reverse.dropWhile isPySpace).reverse := by
  rw [pyStrip]
  have h1 : (pre.data ++ core ++ suf.data).dropWhile isPySpace =
      pre.data.dropWhile isPySpace ++ (core ++ suf.data) := by
    rw [List.append_assoc]
    exact dropWhile_append_of_head (by rw [hhead]; rfl) hc0 pre.data
  rw [show (String.mk (pre.data ++ core ++ suf.data)).data =
    pre.data ++ core ++ suf.data from rfl]
  rw [h1]
  have h2 : (pre.data.dropWhile isPySpace ++ (core ++ suf.data)).reverse =
      suf.data.reverse ++ (e0 :: (l0.reverse ++ (pre.data.dropWhile isPySpace).reverse)) := by
    rw [hlast]
    simp [List.reverse_append]
  rw [h2]
  rw [dropWhile_append_of_head rfl he0 suf.data.reverse]
  rw [List.reverse_append]
  simp only [List.reverse_cons, List.reverse_append, List.reverse_reverse]
  rw [hlast]
  simp

theorem mem_of_mem_dropWhile {p : Char → Bool} {c : Char} {l : List Char}
    (h : c ∈ l.dropWhile p) : c ∈ l := by
  induction l with
  | nil => simpa using h
  | cons x t ih =>
    rw [List.dropWhile_cons] at h
    by_cases hx : p x
    · rw [if_pos (by simp [hx])] at h
      exact List.mem_cons_of_mem _ (ih h)
    · rw [if_neg (by simp [Bool.not_eq_true] at hx; simp [hx])] at h
      exact h

theorem mem_of_mem_rtrim {p : Char → Bool} {c : Char} {l : List Char}
    (h : c ∈ (l.reverse.dropWhile p).reverse) : c ∈ l := by
  rw [List.mem_reverse] at h
  have := mem_of_mem_dropWhile h
  rwa [List.mem_reverse] at this

/-- Salvage correctness of the array-context extractor: a serialized
JSON array embedded between a prefix without `[` and a suffix without
`]`, with no markdown fence and a failing verbatim parse, is recovered
exactly, with the ok flag set. -/
theorem extract_list_pair_salvage (pre suf : String) (xs : List Json)
    (hcan : Json.canonical (.arr xs) = true)
    (hpre : '[' ∉ pre.data) (hsuf : ']' ∉ suf.data)
    (htier1 : json_loads (pre ++ serialize (.arr xs) ++ suf) = none)
    (hf1 : pyStartsWith (pyStrip (pre ++ serialize (.arr xs) ++ suf)) "```json" = false)
    (hf2 : pyEndsWith (pyStrip (pre ++ serialize (.arr xs) ++ suf)) "```" = false) :
    extract_list_pair (pre ++ serialize (.arr xs) ++ suf) = (xs, true) := by
  set t := pre ++ serialize (.arr xs) ++ suf with ht
  have hdata : t.data = pre.data ++ serJ (.arr xs) ++ suf.data := by
    rw [ht]
    simp [String.data_append, serialize]
  obtain ⟨c0, t0, hhead, hc0⟩ := serJ_head_not_pyspace (.arr xs)
  obtain ⟨l0, e0, hlast, he0⟩ := serJ_last_not_pyspace (.arr xs)
  -- first strip
  have hstrip1 : (pyStrip t).data =
      pre.data.dropWhile isPySpace ++ serJ (.arr xs) ++
        (suf.data.reverse.dropWhile isPySpace).reverse := by
    have := pyStrip_append_core pre (serJ (.arr xs)) suf c0 t0 hhead hc0 l0 e0 hlast he0
    rw [← hdata] at this
    simpa using this
  -- clean fences = double strip here
  have hclean : (cleanFences t).data =
      (pre.data.dropWhile isPySpace).dropWhile isPySpace ++ serJ (.arr xs) ++
        (((suf.data.reverse.dropWhile isPySpace).reverse).reverse.dropWhile isPySpace).reverse := by
    rw [cleanFences]
    simp only [hf1, hf2, if_false, Bool.false_eq_true]
    have := pyStrip_append_core ⟨pre.data.dropWhile isPySpace⟩ (serJ (.arr xs))
      ⟨(suf.data.reverse.dropWhile isPySpace).reverse⟩ c0 t0 hhead hc0 l0 e0 hlast he0
    rw [show (pyStrip t) = ⟨(pyStrip t).data⟩ from rfl, hstrip1]
    exact this
  set P := (pre.data.dropWhile isPySpace).dropWhile isPySpace with hP
  set S := (((suf.data.reverse.dropWhile isPySpace).reverse).reverse.dropWhile isPySpace).reverse
    with hS
  have hPmem : '[' ∉ P := fun hm => hpre (mem_of_mem_dropWhile (mem_of_mem_dropWhile hm))
  have hSmem : ']' ∉ S := by
    intro hm
    apply hsuf
    have h1 := mem_of_mem_rtrim hm
    rw [List.mem_reverse] at h1
    have h2 := mem_of_mem_dropWhile h1
    rwa [List.mem_reverse] at h2
  set M := serArr xs with hM
  have hser : serJ (.arr xs) = '[' :: (M ++ [']']) := by rw [serJ]; rfl
  have hcdata : (cleanFences t).data = P ++ '[' :: (M ++ ']' :: S) := by
    rw [hclean, hser]
    simp
  -- locate the brackets
  have hfind : findIdx (cleanFences t).data '[' = some P.length := by
    rw [hcdata]
    exact findIdx_append_at hPmem _
  have hrev : (cleanFences t).data.reverse =
      S.reverse ++ ']' :: (M.reverse ++ '[' :: P.reverse) := by
    rw [hcdata]
    simp [List.reverse_append]
  have hrevfind : findIdx (cleanFences t).data.reverse ']' = some S.reverse.length := by
    rw [hrev]
    exact findIdx_append_at (by simpa using hSmem) _
  have hlenc : (cleanFences t).data.length = P.length + M.length + 2 + S.length := by
    rw [hcdata]
    simp
    omega
  have hrfind : rfindIdx (cleanFences t).data ']' = some (P.length + M.length + 1) := by
    rw [rfindIdx, hrevfind, hlenc]
    simp only [List.length_reverse, Option.some.injEq]
    omega
  -- extract
  rw [extract_list_pair, htier1]
  simp only []
  rw [hfind, hrfind]
  simp only []
  rw [if_pos (by omega)]
  have hslice : sliceSub (cleanFences t).data P.length (P.length + M.length + 1) =
      serJ (.arr xs) := by
    rw [sliceSub, hcdata]
    rw [show P ++ '[' :: (M ++ ']' :: S) = P ++ ('[' :: (M ++ [']']) ++ S) by simp]
    rw [List.drop_left' (by simp), hser]
    have hlx : P.length + M.length + 1 + 1 - P.length = ('[' :: (M ++ [']'])).length := by
      simp only [List.length_cons, List.length_append, List.length_nil]
      omega
    rw [hlx, List.take_left]
  rw [hslice]
  rw [show (⟨serJ (.arr xs)⟩ : String) = serialize (.arr xs) from rfl]
  rw [json_loads_serialize _ hcan]

/-! ### ResourceMap invariants -/

theorem addLink_none {it : SearchItem} (h : it.link = none) (acc : List RLink) :
    addLink acc it = acc := by
  rw [addLink, h]

theorem addLink_some {it : SearchItem} {l : String} (h : it.link = some l) (acc : List RLink) :
    addLink acc it =
      if l = "" then acc
      else if (acc.map RLink.link).contains l then acc
      else acc ++ [⟨it.title.getD "No Title", l, it.snippet.getD "N/A"⟩] := by
  rw [addLink, h]


/-- The per-list invariant of collected resource links. -/
def LinksInv (acc : List RLink) : Prop :=
  (acc.map RLink.link).Nodup ∧ ∀ e ∈ acc, e.link ≠ ""

theorem addLink_inv {acc : List RLink} (h : LinksInv acc) (it : SearchItem) :
    LinksInv (addLink acc it) := by
  cases hl : it.link with
  | none => rw [addLink_none hl]; exact h
  | some l =>
    rw [addLink_some hl]
    by_cases he : l = ""
    · rw [if_pos he]; exact h
    · rw [if_neg he]
      by_cases hc : (acc.map RLink.link).contains l
      · rw [if_pos hc]; exact h
      · rw [if_neg hc]
        constructor
        · rw [List.map_append]
          simp only [List.map_cons, List.map_nil]
          rw [List.nodup_append]
          refine ⟨h.1, List.nodup_singleton _, ?_⟩
          intro a ha
          simp only [List.mem_singleton]
          intro hb
          subst hb
          exact absurd (by simpa using ha) (by simpa using hc)
        · intro e hme
          rcases List.mem_append.mp hme with hm | hm
          · exact h.2 e hm
          · simp only [List.mem_singleton] at hm
            subst hm
            exact he

theorem foldl_addLink_inv (items : List SearchItem) :
    ∀ acc, LinksInv acc → LinksInv (items.foldl addLink acc) := by
  induction items with
  | nil => intro acc h; exact h
  | cons it rest ih =>
    intro acc h
    exact ih _ (addLink_inv h it)

theorem collectLinks_inv (items : List SearchItem) : LinksInv (collectLinks items) :=
  foldl_addLink_inv items [] ⟨List.nodup_nil, by intro e he; cases he⟩

theorem mem_addLink {acc : List RLink} {it : SearchItem} {e : RLink}
    (h : e ∈ addLink acc it) :
    e ∈ acc ∨ (isHit e.link it = true ∧ e.link ≠ "" ∧
      e.link ∉ acc.map RLink.link ∧ e = mkEntry it) := by
  cases hl : it.link with
  | none => rw [addLink_none hl] at h; exact Or.inl h
  | some l =>
    rw [addLink_some hl] at h
    by_cases he : l = ""
    · rw [if_pos he] at h; exact Or.inl h
    · rw [if_neg he] at h
      by_cases hc : (acc.map RLink.link).contains l
      · rw [if_pos hc] at h; exact Or.inl h
      · rw [if_neg hc] at h
        rcases List.mem_append.mp h with hm | hm
        · exact Or.inl hm
        · simp only [List.mem_singleton] at hm
          subst hm
          refine Or.inr ⟨by simp [isHit, hl], he, by simpa using hc, ?_⟩
          rw [mkEntry, hl]
          rfl

theorem addLink_links_mono {acc : List RLink} {it : SearchItem} {l : String}
    (h : l ∈ acc.map RLink.link) : l ∈ (addLink acc it).map RLink.link := by
  cases hl : it.link with
  | none => rw [addLink_none hl]; exact h
  | some l2 =>
    rw [addLink_some hl]
    by_cases he : l2 = ""
    · rw [if_pos he]; exact h
    · rw [if_neg he]
      by_cases hc : (acc.map RLink.link).contains l2
      · rw [if_pos hc]; exact h
      · rw [if_neg hc]
        rw [List.map_append]
        exact List.mem_append_left _ h

theorem addLink_adds {acc : List RLink} {it : SearchItem} {l : String}
    (hit : isHit l it = true) (hne : l ≠ "") (hnotin : l ∉ acc.map RLink.link) :
    l ∈ (addLink acc it).map RLink.link := by
  rw [isHit, beq_iff_eq] at hit
  rw [addLink_some hit, if_neg hne, if_neg (by simpa using hnotin)]
  rw [List.map_append]
  exact List.mem_append_right _ (by simp)

theorem foldl_addLink_first_wins (items : List SearchItem) :
    ∀ acc, ∀ e ∈ items.foldl addLink acc,
      e ∈ acc ∨ (e.link ≠ "" ∧ e.link ∉ acc.map RLink.link ∧
        ∃ it, items.find? (isHit e.link) = some it ∧ e = mkEntry it) := by
  induction items with
  | nil => intro acc e he; exact Or.inl he
  | cons it rest ih =>
    intro acc e he
    rcases ih (addLink acc it) e he with hm | ⟨hne, hnotin, it2, hfind, hent⟩
    · rcases mem_addLink hm with hm2 | ⟨hhit, hne, hnotin, hent⟩
      · exact Or.inl hm2
      · refine Or.inr ⟨hne, hnotin, it, ?_, hent⟩
        rw [List.find?_cons_of_pos _ hhit]
    · have hmiss : isHit e.link it = false := by
        by_contra hb
        rw [Bool.not_eq_false] at hb
        exact hnotin (addLink_adds hb hne (fun hm2 => hnotin (addLink_links_mono hm2)))
      refine Or.inr ⟨hne, fun hm2 => hnotin (addLink_links_mono hm2), it2, ?_, hent⟩
      rw [List.find?_cons_of_neg _ (by simp [hmiss]), hfind]

/-- All three per-list guarantees of `collectLinks` in one statement:
distinct links, no empty or missing links, and each entry built from the
first item in the stream carrying its link. -/
theorem collectLinks_spec (items : List SearchItem) :
    ((collectLinks items).map RLink.link).Nodup ∧
    (∀ e ∈ collectLinks items, e.link ≠ "") ∧
    (∀ e ∈ collectLinks items,
      ∃ it, items.find? (isHit e.link) = some it ∧ e = mkEntry it) := by
  refine ⟨(collectLinks_inv items).1, (collectLinks_inv items).2, ?_⟩
  intro e he
  rcases foldl_addLink_first_wins items [] e he with hm | ⟨-, -, it, hfind, hent⟩
  · cases hm
  · exact ⟨it, hfind, hent⟩

/-- Every entry of the map built by `rcaFold` holds exactly the
deduplicated link list of its own key's query stream. -/
theorem rcaFold_entries (search : SearchFun) (ucs : List Json) :
    ∀ m0 m, rcaFold search m0 ucs = .ok m →
      (∀ kv ∈ m0, kv.2 = collectLinks (rcaStream search kv.1)) →
      ∀ kv ∈ m, kv.2 = collectLinks (rcaStream search kv.1) := by
  induction ucs with
  | nil =>
    intro m0 m hok h0
    rw [rcaFold] at hok
    cases hok
    exact h0
  | cons uc rest ih =>
    intro m0 m hok h0
    rw [rcaFold] at hok
    cases hstep : rcaStep search m0 uc with
    | error e => rw [hstep] at hok; cases hok
    | ok m1 =>
      rw [hstep] at hok
      refine ih m1 m hok ?_
      cases uc with
      | obj kvs =>
        rw [rcaStep.eq_def] at hstep
        simp only [] at hstep
        by_cases hh : hashableJson (dictGetD kvs "title" (.str "Untitled Use Case"))
        · rw [if_pos hh] at hstep
          cases hstep
          intro kv hkv
          rw [mapSet] at hkv
          by_cases hex : m0.any (fun kv2 => jsonBeq kv2.1 (dictGetD kvs "title" (.str "Untitled Use Case")))
          · rw [if_pos hex] at hkv
            rcases List.mem_map.mp hkv with ⟨kv0, hm0, hfkv⟩
            by_cases hb : jsonBeq kv0.1 (dictGetD kvs "title" (.str "Untitled Use Case"))
            · rw [if_pos hb] at hfkv
              rw [← hfkv]
              rw [rcaStream]
            · rw [if_neg hb] at hfkv
              rw [← hfkv]
              exact h0 kv0 hm0
          · rw [if_neg hex] at hkv
            rcases List.mem_append.mp hkv with hm | hm
            · exact h0 kv hm
            · simp only [List.mem_singleton] at hm
              subst hm
              rw [rcaStream]
        · rw [if_neg hh] at hstep
          cases hstep
      | null => rw [rcaStep.eq_def] at hstep; simp at hstep
      | bool b => rw [rcaStep.eq_def] at hstep; simp at hstep
      | num n => rw [rcaStep.eq_def] at hstep; simp at hstep
      | str st => rw [rcaStep.eq_def] at hstep; simp at hstep
      | arr l => rw [rcaStep.eq_def] at hstep; simp at hstep

/-! ### Substring lemmas -/

theorem headMatch_append (p r : List Char) : headMatch p (p ++ r) = true := by
  induction p with
  | nil => rfl
  | cons c cs ih =>
    simp only [List.cons_append, headMatch, beq_self_eq_true, Bool.true_and]
    exact ih

theorem substrL_here (p r : List Char) : substrL p (p ++ r) = true := by
  cases hp : p ++ r with
  | nil =>
    rcases List.append_eq_nil.mp hp with ⟨h1, h2⟩
    subst h1
    simp [substrL]
  | cons c cs =>
    rw [substrL, ← hp, headMatch_append]
    rfl

theorem substrL_of_append (a p b : List Char) : substrL p (a ++ p ++ b) = true := by
  induction a with
  | nil => simpa using substrL_here p b
  | cons c cs ih =>
    rw [List.cons_append, List.cons_append, substrL]
    rw [show (cs ++ p ++ b : List Char) = cs ++ (p ++ b) by simp] at ih
    rw [show (cs ++ p ++ b : List Char) = cs ++ (p ++ b) by simp]
    rw [ih]
    simp

/-- The test `needle in haystack` holds whenever the needle occurs contiguously. -/
theorem substrB_of_append (a p b : String) : substrB p (a ++ p ++ b) = true := by
  rw [substrB, show (a ++ p ++ b).data = a.data ++ p.data ++ b.data by simp [String.data_append]]
  exact substrL_of_append a.data p.data b.data

theorem headMatch_mem {p l : List Char} (h : headMatch p l = true) : ∀ c ∈ p, c ∈ l := by
  induction p generalizing l with
  | nil => intro c hc; cases hc
  | cons x ps ih =>
    cases l with
    | nil => simp [headMatch] at h
    | cons y ls =>
      rw [headMatch, Bool.and_eq_true, beq_iff_eq] at h
      intro c hc
      rcases List.mem_cons.mp hc with h1 | h2
      · subst h1; rw [h.1]; exact List.mem_cons_self _ _
      · exact List.mem_cons_of_mem _ (ih h.2 c h2)

/-- A substring's characters all occur in the haystack. -/
theorem substrL_mem {p l : List Char} (h : substrL p l = true) : ∀ c ∈ p, c ∈ l := by
  induction l with
  | nil =>
    rw [substrL] at h
    intro c hc
    rw [List.isEmpty_iff] at h
    subst h
    cases hc
  | cons x ls ih =>
    rw [substrL, Bool.or_eq_true] at h
    rcases h with h | h
    · exact headMatch_mem h
    · intro c hc
      exact List.mem_cons_of_mem _ (ih h c hc)

/-! ### Agent-level behaviour lemmas -/

theorem uc_agent_gate_true (rd : Option PyDict) (s : SearchFun) (g : GenFun)
    (h : gateCheck rd = .ok true) : use_case_generation_agent rd s g = .ok [] := by
  rw [use_case_generation_agent, h]

theorem uc_agent_gate_false (rd : Option PyDict) (s : SearchFun) (g : GenFun)
    (hg : gateCheck rd = .ok false) (hj : JoinsOk (rd.getD [])) :
    ∃ l, use_case_generation_agent rd s g = .ok l := by
  rw [use_case_generation_agent, hg]
  simp only []
  obtain ⟨o, ho⟩ := hj.1
  obtain ⟨f, hf⟩ := hj.2
  rw [ho, hf]
  exact ⟨_, rfl⟩

theorem sg_agent_gate_true (rd : Option PyDict) (g : GenFun)
    (h : gateCheck rd = .ok true) : optional_genai_proposer_agent rd g = .ok [] := by
  rw [optional_genai_proposer_agent, h]

theorem sg_agent_gate_false (rd : Option PyDict) (g : GenFun)
    (hg : gateCheck rd = .ok false) (hj : JoinsOk (rd.getD [])) :
    ∃ l, optional_genai_proposer_agent rd g = .ok l ∧ 1 ≤ l.length := by
  rw [optional_genai_proposer_agent, hg]
  simp only []
  obtain ⟨o, ho⟩ := hj.1
  obtain ⟨f, hf⟩ := hj.2
  rw [ho, hf]
  refine ⟨_, rfl, ?_⟩
  set suggestions : List Json :=
    (match g (suggestion_prompt_core (pyStr (dictGetD (rd.getD []) "input_name" (.str "The company")))
      (pyStr (dictGetD (rd.getD []) "industry" (.str "a general industry")))
      (pyStr (dictGetD (rd.getD []) "segment"
        (dictGetD (rd.getD []) "industry" (.str "a general industry")))) o f) with
    | .error _ => []
    | .ok raw => (extract_list_pair (pyStrip raw)).1) with hs
  by_cases he : suggestions.isEmpty
  · rw [if_pos he]
    simp
  · rw [if_neg he]
    cases hq : suggestions with
    | nil => rw [hq] at he; simp at he
    | cons a as => simp

theorem rcaStep_ok_of_ucOk (search : SearchFun) (m : List (Json × List RLink)) (uc : Json)
    (h : ucOk uc) : ∃ m2, rcaStep search m uc = .ok m2 := by
  cases uc with
  | obj kvs =>
    rw [rcaStep.eq_def]
    simp only []
    rw [if_pos (by exact h)]
    exact ⟨_, rfl⟩
  | null => cases h
  | bool b => cases h
  | num n => cases h
  | str st => cases h
  | arr l => cases h

theorem rcaFold_ok_of_ucOk (search : SearchFun) (l : List Json) (h : ∀ uc ∈ l, ucOk uc) :
    ∀ m0, ∃ m, rcaFold search m0 l = .ok m := by
  induction l with
  | nil => intro m0; exact ⟨m0, rfl⟩
  | cons uc rest ih =>
    intro m0
    obtain ⟨m1, hm1⟩ := rcaStep_ok_of_ucOk search m0 uc (h uc (List.mem_cons_self _ _))
    obtain ⟨m, hm⟩ := ih (fun z hz => h z (List.mem_cons_of_mem _ hz)) m1
    refine ⟨m, ?_⟩
    rw [rcaFold, hm1]
    simp only []
    rw [hm]

theorem rca_ok_of_ucOk (l : List Json) (search : SearchFun) (g : GenFun)
    (h : ∀ uc ∈ l, ucOk uc) : ∃ m, resource_collection_agent l search g = .ok m := by
  rw [resource_collection_agent]
  by_cases he : l.isEmpty
  · rw [if_pos he]; exact ⟨[], rfl⟩
  · rw [if_neg he]; exact rcaFold_ok_of_ucOk search l h []

theorem research_agent_none_iff (name : String) (search : SearchFun) (gen : GenFun) :
    research_agent name search gen = none ↔ allSearchText name search = "" := by
  rw [research_agent]
  by_cases h : allSearchText name search = ""
  · rw [if_pos h]; simp [h]
  · rw [if_neg h]; simp [h]

/-- With zero results for every research query, the aggregated search
text is empty and `research_agent` returns `None`. -/
theorem research_agent_no_results (name : String) (search : SearchFun) (gen : GenFun)
    (h : ∀ q ∈ researchQueries name, search q 5 = []) :
    research_agent name search gen = none := by
  rw [research_agent_none_iff]
  rw [allSearchText, allResearchItems]
  have : (researchQueries name).map (fun q => search q 5) = [[], [], [], []] := by
    rw [researchQueries] at h ⊢
    simp only [List.map_cons, List.map_nil]
    rw [h _ (by simp), h _ (by simp), h _ (by simp), h _ (by simp)]
  rw [this]
  rfl

/-- When research fails the orchestrator's gate, the failure bundle is
returned directly. -/
theorem orchestrator_gate_true (name : String) (s : SearchFun) (g : GenFun)
    (h : gateCheck (research_agent name s g) = .ok true) :
    orchestrator name s g = .ok (mkFailedBundle (research_agent name s g)) := by
  rw [orchestrator, h]

/-- Under the typing hypotheses on the profile and the parsed use-case
list, the orchestrator returns normally with a valid status. -/
theorem orchestrator_total (name : String) (s : SearchFun) (g : GenFun)
    (h1 : exceptOk (gateCheck (research_agent name s g)) = true)
    (h2 : ∀ d, research_agent name s g = some d → JoinsOk d)
    (h3 : ∀ l, use_case_generation_agent (research_agent name s g) s g = .ok l →
      ∀ uc ∈ l, ucOk uc) :
    ∃ b, orchestrator name s g = .ok b ∧
      (b.status = "Success" ∨ b.status = "Failed Research") := by
  cases hg : gateCheck (research_agent name s g) with
  | error e => rw [hg] at h1; simp [exceptOk] at h1
  | ok gate =>
    cases gate with
    | true =>
      refine ⟨mkFailedBundle (research_agent name s g), orchestrator_gate_true name s g hg, ?_⟩
      right
      rfl
    | false =>
      have hrd : ∃ d, research_agent name s g = some d := by
        cases hr : research_agent name s g with
        | none => rw [hr] at hg; rw [gateCheck] at hg; cases hg
        | some d => exact ⟨d, rfl⟩
      obtain ⟨d, hd⟩ := hrd
      have hjoins : JoinsOk ((research_agent name s g).getD []) := by
        rw [hd]
        exact h2 d hd
      obtain ⟨l, hl⟩ := uc_agent_gate_false (research_agent name s g) s g hg hjoins
      obtain ⟨m, hm⟩ := rca_ok_of_ucOk l s g (h3 l hl)
      obtain ⟨sg, hsg, hsglen⟩ := sg_agent_gate_false (research_agent name s g) g hg hjoins
      refine ⟨⟨l, m, sg, research_agent name s g, "Success"⟩, ?_, Or.inl rfl⟩
      rw [orchestrator, hg]
      simp only []
      rw [hl]
      simp only []
      rw [hm]
      simp only []
      rw [hsg]

/-! ### Dict frame lemmas -/

theorem find?_map_self (k : String) (v : Json) :
    ∀ d : PyDict, d.any (fun kv => kv.1 == k) = true →
      (d.map (fun kv => if kv.1 == k then (k, v) else kv)).find? (fun kv => kv.1 == k) =
        some (k, v) := by
  intro d
  induction d with
  | nil => intro h; cases h
  | cons a as ih =>
    intro h
    by_cases hb : (a.1 == k) = true
    · simp only [List.map_cons]
      rw [if_pos hb]
      rw [List.find?_cons_of_pos _ (by simp)]
    · simp only [List.map_cons]
      rw [if_neg hb]
      rw [List.find?_cons_of_neg _ (by simp [Bool.not_eq_true] at hb ⊢; exact hb)]
      apply ih
      rw [List.any_cons, Bool.or_eq_true] at h
      rcases h with h | h
      · exact absurd h hb
      · exact h

theorem find?_map_other (k2 : String) (v : Json) (k : String) (hne : k2 ≠ k) :
    ∀ d : PyDict,
      (d.map (fun kv => if kv.1 == k2 then (k2, v) else kv)).find? (fun kv => kv.1 == k) =
        d.find? (fun kv => kv.1 == k) := by
  intro d
  induction d with
  | nil => rfl
  | cons a as ih =>
    simp only [List.map_cons]
    by_cases hb : (a.1 == k2) = true
    · rw [if_pos hb]
      rw [List.find?_cons_of_neg _ (by simp [hne])]
      rw [List.find?_cons_of_neg _ (by
        simp only [beq_iff_eq] at hb
        simp [hb, hne])]
      exact ih
    · rw [if_neg hb]
      by_cases hak : (a.1 == k) = true
      · have t1 : List.find? (fun kv => kv.1 == k)
            (a :: List.map (fun kv => if kv.1 == k2 then (k2, v) else kv) as) = some a :=
          List.find?_cons_of_pos _ hak
        have t2 : List.find? (fun kv => kv.1 == k) (a :: as) = some a :=
          List.find?_cons_of_pos _ hak
        rw [t1, t2]
      · have hak2 : ((fun kv => kv.1 == k) a) = false := by
          simp [Bool.not_eq_true] at hak ⊢; exact hak
        have t1 : List.find? (fun kv => kv.1 == k)
            (a :: List.map (fun kv => if kv.1 == k2 then (k2, v) else kv) as) =
            List.find? (fun kv => kv.1 == k)
              (List.map (fun kv => if kv.1 == k2 then (k2, v) else kv) as) :=
          List.find?_cons_of_neg _ (by simp [hak2])
        have t2 : List.find? (fun kv => kv.1 == k) (a :: as) =
            List.find? (fun kv => kv.1 == k) as :=
          List.find?_cons_of_neg _ (by simp [hak2])
        rw [t1, t2]
        exact ih

theorem dictGet_insertPy_self (d : PyDict) (k : String) (v : Json) :
    dictGet (insertPy d k v) k = some v := by
  rw [insertPy]
  by_cases hc : d.any (fun kv => kv.1 == k)
  · rw [if_pos hc, dictGet, find?_map_self k v d hc]
  · rw [if_neg hc, dictGet, List.find?_append]
    have hnone : d.find? (fun kv => kv.1 == k) = none := by
      rw [List.find?_eq_none]
      intro kv hm hb
      exact hc (List.any_eq_true.mpr ⟨kv, hm, hb⟩)
    rw [hnone]
    simp [List.find?]

theorem dictGet_insertPy_ne (d : PyDict) (k2 : String) (v : Json) (k : String)
    (hne : k2 ≠ k) : dictGet (insertPy d k2 v) k = dictGet d k := by
  rw [insertPy]
  by_cases hc : d.any (fun kv => kv.1 == k2)
  · rw [if_pos hc, dictGet, find?_map_other k2 v k hne d, dictGet]
  · rw [if_neg hc, dictGet, dictGet, List.find?_append]
    cases hfd : d.find? (fun kv => kv.1 == k) with
    | some kv => simp
    | none =>
      simp only [Option.none_or]
      rw [show List.find? (fun kv => kv.1 == k) [(k2, v)] = none from by
        simp [List.find?, show ((k2 == k) : Bool) = false from by simpa using hne]]

theorem dictGet_updateObj_not_mem (kvs : List (String × Json)) (k : String)
    (h : ∀ kv ∈ kvs, kv.1 ≠ k) :
    ∀ d, dictGet (dictUpdateObj d kvs) k = dictGet d k := by
  induction kvs with
  | nil => intro d; rfl
  | cons a as ih =>
    intro d
    rw [dictUpdateObj, List.foldl_cons]
    have hstep := ih (fun kv hm => h kv (List.mem_cons_of_mem _ hm)) (insertPy d a.1 a.2)
    rw [dictUpdateObj] at hstep
    rw [hstep]
    exact dictGet_insertPy_ne d a.1 a.2 k (h a (List.mem_cons_self _ _))

/-! ## Claim theorems -/

theorem gateCheck_insufficient (rd : Option PyDict)
    (h : rd = none ∨ (∃ d, rd = some d ∧ dictGet d "industry" = some (.str "N/A")) ∨
      (∃ d st, rd = some d ∧ dictGet d "industry" = some (.str st) ∧
        substrB "Error" st = true)) :
    gateCheck rd = .ok true := by
  rcases h with h | ⟨d, hrd, hind⟩ | ⟨d, st, hrd, hind, hsub⟩
  · subst h; rfl
  · subst hrd
    have hne : d.isEmpty = false := by
      cases d with
      | nil => simp [dictGet, List.find?] at hind
      | cons a as => rfl
    rw [gateCheck]
    rw [if_neg (by simp [hne]), hind]
    simp only []
    simp
  · subst hrd
    have hne : d.isEmpty = false := by
      cases d with
      | nil => simp [dictGet, List.find?] at hind
      | cons a as => rfl
    rw [gateCheck]
    rw [if_neg (by simp [hne]), hind]
    simp only []
    by_cases hna : st = "N/A"
    · rw [if_pos hna]
    · rw [if_neg hna, hsub]

/-- C3 (counterexample): on the serialization of the JSON object
`{"a": 1}`, the verbatim parse succeeds at the first tier, yet the
array-context extractor returns `([], false)`, not the parsed value with
the ok flag — refuting the claim for values whose shape does not match
the context. -/
theorem c3_shape_mismatch :
    extract_list_pair (pyStrip (serialize (Json.obj [("a", Json.num 1)]))) = ([], false) ∧
    json_loads (serialize (Json.obj [("a", Json.num 1)])) =
      some (Json.obj [("a", Json.num 1)]) := by
  exact ⟨rfl, rfl⟩

/-- C3 (amended): for every canonical JSON value `V`, parsing the exact
serialization of `V` succeeds at the first tier and returns `V`; hence
the array-context extractor on a serialized array returns
`(elements, true)` and the object-context two-tier parse on a serialized
object returns the object, both at tier one. -/
theorem c3_roundtrip (v : Json) (h : Json.canonical v = true) :
    json_loads (pyStrip (serialize v)) = some v ∧
    (∀ xs, v = .arr xs → extract_list_pair (pyStrip (serialize v)) = (xs, true)) ∧
    (∀ kvs, v = .obj kvs → extract_object_tiers (pyStrip (serialize v)) = some v) := by
  rw [pyStrip_serialize]
  refine ⟨json_loads_serialize v h, ?_, ?_⟩
  · intro xs he
    rw [extract_list_pair, json_loads_serialize v h, he]
  · intro kvs he
    rw [extract_object_tiers, json_loads_serialize v h]

/-- C3 (witness): the round-trip theorem applied to the concrete array
`[1, 2, 3]`. -/
theorem c3_roundtrip_witness :
    json_loads (pyStrip (serialize (Json.arr [Json.num 1, Json.num 2, Json.num 3]))) =
      some (Json.arr [Json.num 1, Json.num 2, Json.num 3]) ∧
    (∀ xs, Json.arr [Json.num 1, Json.num 2, Json.num 3] = .arr xs →
      extract_list_pair (pyStrip (serialize (Json.arr [Json.num 1, Json.num 2, Json.num 3]))) =
        (xs, true)) ∧
    (∀ kvs, Json.arr [Json.num 1, Json.num 2, Json.num 3] = .obj kvs →
      extract_object_tiers
        (pyStrip (serialize (Json.arr [Json.num 1, Json.num 2, Json.num 3]))) =
        some (Json.arr [Json.num 1, Json.num 2, Json.num 3])) :=
  c3_roundtrip (Json.arr [Json.num 1, Json.num 2, Json.num 3]) (by rfl)

/-- C5 (counterexample): a parsed generator response containing an
`input_name` key overwrites the profile's `input_name` — the merge is
a full `dict.update`, not limited to the four documented fields. -/
theorem c5_update_overwrites :
    (research_agent "Acme" (perform_GoogleSearch cSearchOne) cGenHack).bind
      (fun d => dictGet d "input_name") = some (.str "HACKED") := by
  rfl

/-- C5 (amended): merging a parsed object overwrites every key it
contains; when the parsed object's keys are limited to the four
documented fields, `input_name` and `search_results` are unchanged. -/
theorem c5_update_frame (d : PyDict) (kvs : List (String × Json))
    (h : ∀ kv ∈ kvs, kv.1 = "industry" ∨ kv.1 = "segment" ∨
      kv.1 = "offerings" ∨ kv.1 = "strategic_focus") :
    dictGet (dictUpdateObj d kvs) "input_name" = dictGet d "input_name" ∧
    dictGet (dictUpdateObj d kvs) "search_results" = dictGet d "search_results" := by
  constructor
  · apply dictGet_updateObj_not_mem
    intro kv hm
    rcases h kv hm with h1 | h1 | h1 | h1 <;> rw [h1] <;> decide
  · apply dictGet_updateObj_not_mem
    intro kv hm
    rcases h kv hm with h1 | h1 | h1 | h1 <;> rw [h1] <;> decide

/-- C5 (witness): the frame property at a concrete profile and parsed
object touching all four documented fields. -/
theorem c5_update_frame_witness :
    dictGet (dictUpdateObj [("input_name", Json.str "Acme"), ("search_results", Json.arr [])]
      [("industry", Json.str "Tech"), ("segment", Json.str "B2B"),
       ("offerings", Json.arr []), ("strategic_focus", Json.arr [])]) "input_name" =
      dictGet [("input_name", Json.str "Acme"), ("search_results", Json.arr [])] "input_name" ∧
    dictGet (dictUpdateObj [("input_name", Json.str "Acme"), ("search_results", Json.arr [])]
      [("industry", Json.str "Tech"), ("segment", Json.str "B2B"),
       ("offerings", Json.arr []), ("strategic_focus", Json.arr [])]) "search_results" =
      dictGet [("input_name", Json.str "Acme"), ("search_results", Json.arr [])]
        "search_results" :=
  c5_update_frame _ _ (by intro kv hm; fin_cases hm <;> simp)

/-- C7 (counterexample): a profile that passes the gate but carries a
non-string `offerings` list makes the suggestion agent raise a
`TypeError` from `", ".join` instead of returning a sequence. -/
theorem c7_join_raises :
    exceptOk (optional_genai_proposer_agent (some cProfileBadOfferings) cGenRaise) = false := by
  rfl

/-- C7 (amended): when the gate passes and the two list-valued profile
fields are join-compatible, the suggestion agent returns a sequence of
length ≥ 1 for every generator behaviour (raising or unparseable
included); when the gate rejects, it returns the empty sequence without
the fallback. -/
theorem c7_suggester_nonempty (rd : Option PyDict) (gen : GenFun) :
    (gateCheck rd = .ok false → JoinsOk (rd.getD []) →
      ∃ l, optional_genai_proposer_agent rd gen = .ok l ∧ 1 ≤ l.length) ∧
    (gateCheck rd = .ok true → optional_genai_proposer_agent rd gen = .ok []) :=
  ⟨fun hg hj => sg_agent_gate_false rd gen hg hj,
   fun hg => sg_agent_gate_true rd gen hg⟩

/-- C7 (witness): the non-emptiness half at a concrete well-typed
profile with a raising generator, and the gate half at a null profile. -/
theorem c7_suggester_witness :
    (∃ l, optional_genai_proposer_agent (some cProfileTech) cGenRaise = .ok l ∧
      1 ≤ l.length) ∧
    optional_genai_proposer_agent none cGenRaise = .ok [] :=
  ⟨(c7_suggester_nonempty (some cProfileTech) cGenRaise).1 rfl ⟨⟨_, rfl⟩, ⟨_, rfl⟩⟩,
   (c7_suggester_nonempty none cGenRaise).2 rfl⟩

/-- C8: a null profile, an `industry` equal to `"N/A"`, or an `industry`
containing the case-sensitive substring `"Error"` makes both
`use_case_generation_agent` and `optional_genai_proposer_agent` return
the empty sequence, for every search and generator behaviour (so neither
collaborator is ever consulted). -/
theorem c8_insufficient_gate (rd : Option PyDict) (search : SearchFun) (gen : GenFun)
    (h : rd = none ∨ (∃ d, rd = some d ∧ dictGet d "industry" = some (.str "N/A")) ∨
      (∃ d st, rd = some d ∧ dictGet d "industry" = some (.str st) ∧
        substrB "Error" st = true)) :
    use_case_generation_agent rd search gen = .ok [] ∧
    optional_genai_proposer_agent rd gen = .ok [] := by
  have hg := gateCheck_insufficient rd h
  exact ⟨uc_agent_gate_true rd search gen hg, sg_agent_gate_true rd gen hg⟩

/-- C8 (witness): both agents return the empty sequence on the profile
with `industry = "Error: timeout"`. -/
theorem c8_insufficient_gate_witness :
    use_case_generation_agent (some cProfileErr) (perform_GoogleSearch cSearchOne)
      cGenRaise = .ok [] ∧
    optional_genai_proposer_agent (some cProfileErr) cGenRaise = .ok [] :=
  c8_insufficient_gate (some cProfileErr) (perform_GoogleSearch cSearchOne) cGenRaise
    (Or.inr (Or.inr ⟨cProfileErr, "Error: timeout", rfl, rfl, rfl⟩))

/-- C9: in the map returned by `resource_collection_agent`, every use
case's list is exactly the deduplicated link list of its own query
stream: link values are pairwise distinct, no entry has an empty or
missing link, and each entry carries the title and snippet of the first
result item bearing its link. -/
theorem c9_resource_dedup (use_cases : List Json) (search : SearchFun) (gen : GenFun)
    (m : List (Json × List RLink))
    (h : resource_collection_agent use_cases search gen = .ok m) :
    ∀ kv ∈ m, kv.2 = collectLinks (rcaStream search kv.1) ∧
      (kv.2.map RLink.link).Nodup ∧ (∀ e ∈ kv.2, e.link ≠ "") ∧
      (∀ e ∈ kv.2, ∃ it, (rcaStream search kv.1).find? (isHit e.link) = some it ∧
        e = mkEntry it) := by
  intro kv hkv
  have hval : kv.2 = collectLinks (rcaStream search kv.1) := by
    rw [resource_collection_agent] at h
    by_cases he : use_cases.isEmpty
    · rw [if_pos he] at h
      injection h with h2
      subst h2
      cases hkv
    · rw [if_neg he] at h
      exact rcaFold_entries search use_cases [] m h (by intro kv2 hkv2; cases hkv2) kv hkv
  obtain ⟨h1, h2, h3⟩ := collectLinks_spec (rcaStream search kv.1)
  refine ⟨hval, ?_, ?_, ?_⟩
  · rw [hval]; exact h1
  · rw [hval]; exact h2
  · rw [hval]; exact h3

/-- C9 (witness): two result items share the link `"L1"` for the use
case `"UC"`; the resulting list holds exactly one entry for that link,
with the first item's title and snippet. -/
theorem c9_resource_dedup_witness :
    ((Json.str "UC", [(⟨"A", "L1", "sA"⟩ : RLink)]) : Json × List RLink).2 =
      collectLinks (rcaStream cSearchDupFun (Json.str "UC")) ∧
    ((([(⟨"A", "L1", "sA"⟩ : RLink)]).map RLink.link).Nodup) ∧
    (∀ e ∈ [(⟨"A", "L1", "sA"⟩ : RLink)], e.link ≠ "") ∧
    (∀ e ∈ [(⟨"A", "L1", "sA"⟩ : RLink)],
      ∃ it, (rcaStream cSearchDupFun (Json.str "UC")).find? (isHit e.link) = some it ∧
        e = mkEntry it) :=
  c9_resource_dedup [.obj [("title", .str "UC")]] cSearchDupFun cGenRaise
    [(Json.str "UC", [⟨"A", "L1", "sA"⟩])] rfl
    (Json.str "UC", [⟨"A", "L1", "sA"⟩]) (List.mem_cons_self _ _)

/-- C1 (counterexample): a generator response parsing to
`{"industry": 5}` makes the orchestrator's gate evaluate
`"Error" in 5`, raising a `TypeError` that escapes `orchestrate` — the
orchestrator does not return a bundle for every collaborator
behaviour. -/
theorem c1_orchestrator_raises :
    exceptOk (orchestrate_entry "X" cSearchOne cGenNumIndustry) = false := by
  rfl

/-- C1 (amended): for every subject and every collaborator behaviour
such that the profile's `industry` value keeps the gate total, its two
list-valued fields are join-compatible, and every parsed use case is a
dict with a hashable title, the orchestrator returns a bundle whose
status is `Success` or `Failed Research`; search-backend exceptions are
always absorbed by the `perform_GoogleSearch` wrapper. -/
theorem c1_no_raise (name : String) (raw : RawSearch) (gen : GenFun)
    (h1 : exceptOk (gateCheck (research_agent name (perform_GoogleSearch raw) gen)) = true)
    (h2 : ∀ d, research_agent name (perform_GoogleSearch raw) gen = some d → JoinsOk d)
    (h3 : ∀ l, use_case_generation_agent (research_agent name (perform_GoogleSearch raw) gen)
        (perform_GoogleSearch raw) gen = .ok l → ∀ uc ∈ l, ucOk uc) :
    ∃ b, orchestrate_entry name raw gen = .ok b ∧
      (b.status = "Success" ∨ b.status = "Failed Research") :=
  orchestrator_total name (perform_GoogleSearch raw) gen h1 h2 h3

/-- C1 (witness): the amended theorem at a raising generator — research
degrades to error markers, the gate rejects, and the failure bundle is
returned. -/
theorem c1_no_raise_witness :
    ∃ b, orchestrate_entry "X" cSearchOne cGenRaise = .ok b ∧
      (b.status = "Success" ∨ b.status = "Failed Research") := by
  apply c1_no_raise "X" cSearchOne cGenRaise
  · rfl
  · intro d hd
    have hde : d = (research_agent "X" (perform_GoogleSearch cSearchOne) cGenRaise).getD [] := by
      rw [hd]
      rfl
    subst hde
    exact ⟨⟨_, rfl⟩, ⟨_, rfl⟩⟩
  · intro l hl
    rw [show use_case_generation_agent
        (research_agent "X" (perform_GoogleSearch cSearchOne) cGenRaise)
        (perform_GoogleSearch cSearchOne) cGenRaise = Except.ok ([] : List Json) from rfl] at hl
    injection hl with h
    subst h
    intro uc huc
    cases huc

/-- C2: if the search tool yields zero results for all four research
queries, `research_agent` returns `None` and the orchestrator returns
the bundle with empty collections and status `Failed Research`
(independent of the generator — it is never consulted); and in general,
whenever the research output fails the orchestrator's gate, the
orchestrator returns that failure bundle directly, skipping the
downstream agents. -/
theorem c2_failed_research :
    (∀ name (raw : RawSearch) (gen : GenFun),
      (∀ q ∈ researchQueries name, perform_GoogleSearch raw q 5 = []) →
      research_agent name (perform_GoogleSearch raw) gen = none ∧
      orchestrate_entry name raw gen = .ok (mkFailedBundle none)) ∧
    (∀ name (s : SearchFun) (gen : GenFun),
      gateCheck (research_agent name s gen) = .ok true →
      orchestrator name s gen = .ok (mkFailedBundle (research_agent name s gen))) := by
  constructor
  · intro name raw gen h
    have hnone := research_agent_no_results name (perform_GoogleSearch raw) gen h
    refine ⟨hnone, ?_⟩
    rw [orchestrate_entry]
    rw [orchestrator_gate_true name (perform_GoogleSearch raw) gen (by rw [hnone]; rfl)]
    rw [hnone]
  · intro name s gen h
    exact orchestrator_gate_true name s gen h

/-- C2 (witness): with a backend returning zero results everywhere and a
raising generator, research returns `None` and the orchestrator returns
the empty failure bundle. -/
theorem c2_failed_research_witness :
    research_agent "A" (perform_GoogleSearch cSearchNone) cGenRaise = none ∧
    orchestrate_entry "A" cSearchNone cGenRaise = .ok (mkFailedBundle none) :=
  c2_failed_research.1 "A" cSearchNone cGenRaise (by intro q _; rfl)

/-- C4 (counterexample): the object-expected context (`research_agent`)
has no bracket-substring tier: a JSON object embedded in surrounding
prose fails both of its parse tiers, and the agent falls back to the
parse-failure markers instead of salvaging the object. -/
theorem c4_object_not_salvaged :
    extract_object_tiers
      (pyStrip "Sure! Here you go: \x7b\"a\": 1\x7d Hope that helps.") = none ∧
    (research_agent "Acme" (perform_GoogleSearch cSearchOne) cGenProseObj).bind
      (fun d => dictGet d "industry") = some (.str parseFailMsg) := by
  exact ⟨rfl, rfl⟩

/-- C4 (amended): in array-expected contexts the extractor locates the
first `[` and the last `]` of the fence-cleaned string and parses the
inclusive substring — recovering any serialized array embedded between
a `[`-free prefix and a `]`-free suffix; the object-expected context
performs no such salvage (fence-cleaning and reparsing only). -/
theorem c4_array_salvage (pre suf : String) (xs : List Json)
    (hcan : Json.canonical (.arr xs) = true)
    (hpre : '[' ∉ pre.data) (hsuf : ']' ∉ suf.data)
    (htier1 : json_loads (pre ++ serialize (.arr xs) ++ suf) = none)
    (hf1 : pyStartsWith (pyStrip (pre ++ serialize (.arr xs) ++ suf)) "```json" = false)
    (hf2 : pyEndsWith (pyStrip (pre ++ serialize (.arr xs) ++ suf)) "```" = false) :
    extract_list_pair (pre ++ serialize (.arr xs) ++ suf) = (xs, true) ∧
    extract_object_tiers
      (pyStrip "Sure! Here you go: \x7b\"a\": 1\x7d Hope that helps.") = none :=
  ⟨extract_list_pair_salvage pre suf xs hcan hpre hsuf htier1 hf1 hf2, rfl⟩

/-- C4 (witness): the salvage theorem at the spec's own example —
`"Sure! Here you go: " + serialize([1,2,3]) + " Hope that helps."` in
array mode returns `([1,2,3], true)`. -/
theorem c4_array_salvage_witness :
    extract_list_pair ("Sure! Here you go: " ++
      serialize (.arr [Json.num 1, Json.num 2, Json.num 3]) ++ " Hope that helps.") =
      ([Json.num 1, Json.num 2, Json.num 3], true) ∧
    extract_object_tiers
      (pyStrip "Sure! Here you go: \x7b\"a\": 1\x7d Hope that helps.") = none :=
  c4_array_salvage "Sure! Here you go: " " Hope that helps."
    [Json.num 1, Json.num 2, Json.num 3] (by rfl) (by decide) (by decide) (by rfl)
    (by rfl) (by rfl)

/-- C10: when the generator's response parses to a JSON object lacking
an `"industry"` key (and searches found something), `research_agent`
still returns a profile whose `industry` is the literal `"N/A"`, and the
orchestrator consequently returns the `Failed Research` bundle with
empty collections even though structured extraction succeeded. -/
theorem c10_missing_industry (name : String) (search : SearchFun)
    (kvs : List (String × Json))
    (hcan : Json.canonical (.obj kvs) = true)
    (hki : ∀ kv ∈ kvs, kv.1 ≠ "industry")
    (hs : allSearchText name search ≠ "") :
    ∃ d, research_agent name search (fun _ => .ok (serialize (.obj kvs))) = some d ∧
      dictGet d "industry" = some (.str "N/A") ∧
      orchestrator name search (fun _ => .ok (serialize (.obj kvs))) =
        .ok (mkFailedBundle (some d)) := by
  have hbase : dictGet (researchBase name search) "industry" = some Json.null := by
    rw [researchBase, dictGet]
    rfl
  have hafter : dictGet (dictUpdateObj (researchBase name search) kvs) "industry" =
      some Json.null := by
    rw [dictGet_updateObj_not_mem kvs "industry" hki, hbase]
  have hres : research_agent name search (fun _ => .ok (serialize (.obj kvs))) =
      some (insertPy (dictUpdateObj (researchBase name search) kvs) "industry"
        (.str "N/A")) := by
    rw [research_agent, if_neg hs]
    simp only []
    rw [pyStrip_serialize, extract_object_tiers, json_loads_serialize _ hcan]
    simp only [dictUpdateJson]
    rw [hafter]
  refine ⟨_, hres, dictGet_insertPy_self _ _ _, ?_⟩
  have hget : dictGet (insertPy (dictUpdateObj (researchBase name search) kvs) "industry"
      (.str "N/A")) "industry" = some (.str "N/A") := dictGet_insertPy_self _ _ _
  have hgate : gateCheck (research_agent name search (fun _ => .ok (serialize (.obj kvs)))) =
      .ok true := by
    rw [hres]
    exact gateCheck_insufficient _ (Or.inr (Or.inl ⟨_, rfl, hget⟩))
  rw [orchestrator_gate_true name search _ hgate, hres]

/-- C10 (witness): a parsed object carrying only a `segment` key leads
to `industry = "N/A"` and a failed-research bundle. -/
theorem c10_missing_industry_witness :
    ∃ d, research_agent "Acme" (perform_GoogleSearch cSearchOne)
        (fun _ => .ok (serialize (.obj [("segment", Json.str "X")]))) = some d ∧
      dictGet d "industry" = some (.str "N/A") ∧
      orchestrator "Acme" (perform_GoogleSearch cSearchOne)
        (fun _ => .ok (serialize (.obj [("segment", Json.str "X")]))) =
        .ok (mkFailedBundle (some d)) :=
  c10_missing_industry "Acme" (perform_GoogleSearch cSearchOne)
    [("segment", Json.str "X")] (by rfl)
    (by intro kv hm; fin_cases hm; decide) (by decide)

theorem substrL_append_left (a : List Char) {p t : List Char} (h : substrL p t = true) :
    substrL p (a ++ t) = true := by
  induction a with
  | nil => simpa using h
  | cons c cs ih =>
    rw [List.cons_append, substrL, ih]
    simp

theorem pyTake_all_of_le {s : String} {n : Nat} (h : s.length ≤ n) : pyTake n s = s := by
  rw [pyTake, List.take_of_length_le h]

/-- C6 (amended): the hardcoded insights block is appended to the trend
text before the `[:7000]` truncation; it therefore appears in the prompt
whenever the combined trend text does not exceed 7000 characters — but
not unconditionally (see the counterexample). -/
theorem c6_insights_present (company industry segment offerings focus : String)
    (search : SearchFun)
    (h : (use_case_trend_text industry segment search).length ≤ 7000) :
    substrB (hypothetical_insights industry)
      (use_case_prompt_core company industry segment offerings focus
        (use_case_trend_text industry segment search)) = true := by
  rw [substrB, use_case_prompt_core, pyTake_all_of_le h, use_case_trend_text]
  simp only [String.data_append, List.append_assoc]
  repeat
    first
    | exact substrL_here _ _
    | apply substrL_append_left

/-- For any snippet of at least 7000 characters containing no `K`, the
truncated prompt contains no `K` either, so the insights block (which
contains `McKinsey`) does not occur in it. -/
theorem insights_cut_core (snip : String)
    (hsniplen : 7000 ≤ snip.data.length)
    (hsnipK : 'K' ∉ snip.data) :
    substrB (hypothetical_insights "I")
      (use_case_prompt_core "C" "I" "I" "various products/services"
        "improving operations and customer experience"
        (use_case_trend_text "I" "I" (fun _ _ => [⟨some "T", some snip, some "L"⟩]))) =
      false := by
  have ht : (use_case_trend_text "I" "I" (fun _ _ => [⟨some "T", some snip, some "L"⟩])).data =
      (itemText ⟨some "T", some snip, some "L"⟩).data ++
        ((itemText ⟨some "T", some snip, some "L"⟩).data ++
        ((itemText ⟨some "T", some snip, some "L"⟩).data ++
        ((itemText ⟨some "T", some snip, some "L"⟩).data ++
          (hypothetical_insights "I").data))) := by
    rw [use_case_trend_text]
    simp [trendQueries, catLists, String.join, String.data_append]
  have hlen : 7000 ≤ (itemText ⟨some "T", some snip, some "L"⟩).data.length := by
    rw [itemText]
    simp only [Option.getD_some, String.data_append, List.length_append]
    omega
  cases hb : substrB (hypothetical_insights "I")
      (use_case_prompt_core "C" "I" "I" "various products/services"
        "improving operations and customer experience"
        (use_case_trend_text "I" "I" (fun _ _ => [⟨some "T", some snip, some "L"⟩]))) with
  | false => rfl
  | true =>
    exfalso
    rw [substrB] at hb
    have hmem := substrL_mem hb 'K' (by decide)
    rw [use_case_prompt_core] at hmem
    simp only [pyTake, String.data_append, List.append_assoc] at hmem
    rw [ht, List.take_append_of_le_length hlen] at hmem
    simp only [List.mem_append] at hmem
    rcases hmem with h | h | h | h | h | h | h | h | h | h | h | h | h | h | h
    · exact absurd h (by decide)
    · exact absurd h (by decide)
    · exact absurd h (by decide)
    · exact absurd h (by decide)
    · exact absurd h (by decide)
    · exact absurd h (by decide)
    · exact absurd h (by decide)
    · exact absurd h (by decide)
    · exact absurd h (by decide)
    · exact absurd h (by decide)
    · exact absurd h (by decide)
    · have h2 := List.take_subset _ _ h
      simp only [itemText, String.data_append, List.append_assoc, List.mem_append] at h2
      rcases h2 with h3 | h3 | h3 | h3 | h3 | h3 | h3
      · exact absurd h3 (by decide)
      · exact absurd h3 (by decide)
      · exact absurd h3 (by decide)
      · exact absurd h3 hsnipK
      · exact absurd h3 (by decide)
      · exact absurd h3 (by decide)
      · exact absurd h3 (by decide)
    · exact absurd h (by decide)
    · exact absurd h (by decide)
    · exact absurd h (by decide)

/-- C6 (counterexample): with search results totalling more than 7000
characters, the `[:7000]` truncation cuts off the appended insights
block entirely — the prompt does not contain it, refuting "always
present regardless of search outcome". -/
theorem c6_insights_truncated :
    substrB (hypothetical_insights "I")
      (use_case_prompt_core "C" "I" "I" "various products/services"
        "improving operations and customer experience"
        (use_case_trend_text "I" "I" cSearchBig)) = false :=
  insights_cut_core bigSnippet
    (by rw [show bigSnippet.data = List.replicate 8000 'a' from rfl, List.length_replicate]
        omega)
    (by rw [show bigSnippet.data = List.replicate 8000 'a' from rfl]
        intro h
        exact absurd (List.eq_of_mem_replicate h) (by decide))

/-- C6 (witness): the amended theorem at a search with no results — the
trend text is just the insights block, the truncation is inert, and the
block appears in the prompt. -/
theorem c6_insights_present_witness :
    substrB (hypothetical_insights "I")
      (use_case_prompt_core "C" "I" "I" "various products/services"
        "improving operations and customer experience"
        (use_case_trend_text "I" "I" (perform_GoogleSearch cSearchNone))) = true :=
  c6_insights_present "C" "I" "I" "various products/services"
    "improving operations and customer experience" (perform_GoogleSearch cSearchNone)
    (by decide)
